import Mathlib

/-!
Shallow embedding of `pkg/disk/disk.go` from the finch repository: the user
data disk reconciler (`EnsureUserDataDisk`) together with the helpers it
calls (`limaDiskExists`, `getDiskInfo`, `convertToRaw`, `createLimaDisk`,
`attachPersistentDiskToLimaDisk`, `limaDiskIsLocked`, `unlockLimaDisk`).

The host filesystem is modelled as a map from paths to entries, and every
external subprocess (the lima registry CLI and qemu-img) is modelled by an
oracle fixing its outcome, plus the state effect its contract describes.
Each operation records itself in a trace so that claims about which
operations a run performs can be stated and proved.

The filesystem primitives (`stat`, `rename`, `mkdir-all`, `remove`,
`read-symlink-if-possible`, `symlink-if-possible`) are collaborators
injected into the Go code from outside this package; their semantics below
follow the contract the specification states for them (stat succeeds when
the path holds an entry; rename moves, tolerating a pre-existing
destination and failing on a missing source; read-symlink yields the empty
string on a non-symlink; symlink creation is a no-op when the link path is
already occupied).
-/

namespace FinchDisk

/-- The `diskName` constant of disk.go. -/
def diskName : String := "finch"

/-- The `diskSize` constant of disk.go. -/
def diskSize : String := "50G"

/-- An entry of the host filesystem: a regular file carrying its disk-image
format (as qemu-img would report it), a directory, or a symlink with its
target path. -/
inductive FSEntry where
  | file (format : String)
  | dir
  | symlink (target : String)
deriving DecidableEq, Repr

/-- The host filesystem: a partial map from paths to entries. -/
def FS : Type := String → Option FSEntry

/-- Point update of the filesystem map. -/
def FS.update (fs : FS) (p : String) (e : Option FSEntry) : FS :=
  fun q => if q = p then e else fs q

/-- Modelled from the spec: `stat` (the fs collaborator's Stat) succeeds
exactly when the path currently holds an entry. -/
def FS.stat (fs : FS) (p : String) : Bool :=
  (fs p).isSome

/-- Modelled from the spec: `rename` (the fs collaborator's Rename) moves
the entry at `src` to `dst`, tolerating a pre-existing destination, and
fails when the source is absent. -/
def FS.rename (fs : FS) (src dst : String) : Option FS :=
  match fs src with
  | none => none
  | some e => some (((fs.update src none)).update dst (some e))

/-- Modelled from the spec: `mkdir-all` (MkdirAll) creates a directory at
the path; it does not fail. -/
def FS.mkdirAll (fs : FS) (p : String) : FS :=
  fs.update p (some .dir)

/-- Modelled from the spec: `read-symlink-if-possible` returns a symlink's
target, and the "empty result if it is not a symlink, e.g. a real file or
missing". -/
def FS.readlinkIfPossible (fs : FS) (p : String) : String :=
  match fs p with
  | some (.symlink t) => t
  | _ => ""

/-- Modelled from the spec: `symlink-if-possible` is "a no-op if the target
path already exists"; otherwise it creates the symlink. -/
def FS.symlinkIfPossible (fs : FS) (target linkname : String) : FS :=
  if (fs linkname).isSome then fs else fs.update linkname (some (.symlink target))

/-- The registry slot path, line 104/202 of disk.go:
`fmt.Sprintf("%s/_disks/%s/datadisk", m.finch.LimaHomePath(), diskName)`. -/
def limaPath (c : String) : String :=
  c ++ "/_disks/" ++ diskName ++ "/datadisk"

/-- The lock marker path, line 238 of disk.go:
`path.Join(m.finch.LimaHomePath(), "_disks", diskName, "in_use_by")`
(path.Join modelled as slash concatenation, exact for a clean home path). -/
def lockPath (c : String) : String :=
  c ++ "/_disks/" ++ diskName ++ "/in_use_by"

/-- The characters strictly before the last slash, when a slash occurs. -/
def beforeLastSlash : List Char → Option (List Char)
  | [] => none
  | c :: cs =>
    match beforeLastSlash cs with
    | some rest => some (c :: rest)
    | none => if c = '/' then some [] else none

/-- Go `path.Dir`, simplified to the text before the final slash-separated
element, "." for a slashless path (disk.go applies it only to the
persistent disk path, line 204). -/
def pathDir (p : String) : String :=
  match beforeLastSlash p.data with
  | some cs => String.mk cs
  | none => "."

/-- The configuration the manager carries: `*m.config.VMType`,
`m.finch.LimaHomePath()` and `m.finch.UserDataDiskPath(m.homeDir)` (the two
path collaborators are out of scope, so their results are configuration). -/
structure Config where
  vmType : String
  limaHome : String
  userDataDiskPath : String
deriving DecidableEq, Repr

/-- The slot path for a configuration. -/
def Config.slot (c : Config) : String := limaPath c.limaHome

/-- The lock marker path for a configuration. -/
def Config.lock (c : Config) : String := lockPath c.limaHome

/-- The sibling path `fmt.Sprintf("%s.qcow2", diskPath)` of line 173. -/
def Config.qcow (c : Config) : String := c.userDataDiskPath ++ ".qcow2"

/-- The parent directory of the persistent disk path, line 204. -/
def Config.disksDir (c : Config) : String := pathDir c.userDataDiskPath

/-- One observable operation of a run: a subprocess invocation or a
state-changing filesystem call, in the order performed. `attachInvoked`
marks each entry into `attachPersistentDiskToLimaDisk` (link repair). -/
inductive Op where
  | diskLs
  | qemuInfo (p : String)
  | qemuConvert (srcFormat src dst : String)
  | rename (src dst : String)
  | remove (p : String)
  | mkdirAll (p : String)
  | symlink (target linkname : String)
  | diskCreate
  | diskUnlock
  | attachInvoked
deriving DecidableEq, Repr

/-- Whether an operation changes registry or filesystem state (queries and
the link-repair entry marker do not). -/
def Op.isMutating : Op → Bool
  | .diskLs => false
  | .qemuInfo _ => false
  | .attachInvoked => false
  | _ => true

/-- Which error a run returns (disk.go wraps each with a message; the tag
identifies the failing step). -/
inductive DiskErr where
  | infoFailed
  | renameFailed
  | convertFailed
  | moveFailed
  | createFailed
  | unlockFailed
deriving DecidableEq, Repr

/-- Outcome of the `disk ls <name> --json` query: command failure,
undecodable JSON, or a decoded record with its `name` field. -/
inductive LsResult where
  | cmdError
  | badJSON
  | ok (name : String)
deriving DecidableEq, Repr

/-- Outcomes of the external subprocesses during one run (each is invoked
at most once per run of `EnsureUserDataDisk`). -/
structure Oracle where
  lsResult : LsResult
  infoFails : Bool
  convertFails : Bool
  createFails : Bool
  unlockFails : Bool
deriving DecidableEq, Repr

/-- Result of a step: the filesystem afterwards, the operations performed
(also on failure, up to the failing one), and the error if any. -/
structure StepResult where
  fs : FS
  ops : List Op
  err : Option DiskErr

/-- Sequencing: on error stop (disk.go returns the first error
immediately); on success run the continuation and append its trace. -/
def StepResult.andThen (r : StepResult) (k : FS → StepResult) : StepResult :=
  match r.err with
  | some _ => r
  | none =>
    let r2 := k r.fs
    ⟨r2.fs, r.ops ++ r2.ops, r2.err⟩

/-- Lines 139-151, `limaDiskExists`: false on command error or undecodable
output, otherwise the decoded name must equal `diskName`. -/
def limaDiskExists (o : Oracle) : Bool :=
  match o.lsResult with
  | .cmdError => false
  | .badJSON => false
  | .ok name => name == diskName

/-- Lines 153-170, `getDiskInfo`: the oracle covers subprocess or JSON
decode failure; otherwise qemu-img reports the format of the regular file
at the path (and fails when no such file is there). -/
def getDiskInfo (o : Oracle) (fs : FS) (diskPath : String) : Except DiskErr String :=
  if o.infoFails then .error .infoFailed
  else
    match fs diskPath with
    | some (.file format) => .ok format
    | _ => .error .infoFailed

/-- Lines 172-191, `convertToRaw`: rename the disk to `<diskPath>.qcow2`,
then invoke `qemu-img convert -f qcow2 -O raw <qcow> <diskPath>`; on
success the converted raw image sits at the original path. -/
def convertToRaw (c : Config) (o : Oracle) (fs : FS) : StepResult :=
  let dp := c.userDataDiskPath
  match FS.rename fs dp c.qcow with
  | none => ⟨fs, [.rename dp c.qcow], some .renameFailed⟩
  | some fs1 =>
    if o.convertFails then
      ⟨fs1, [.rename dp c.qcow, .qemuConvert "qcow2" c.qcow dp], some .convertFailed⟩
    else
      ⟨fs1.update dp (some (.file "raw")),
        [.rename dp c.qcow, .qemuConvert "qcow2" c.qcow dp], none⟩

/-- Lines 193-199, `createLimaDisk`: `disk create finch --size 50G --format
raw`; the collaborator contract is that a successful create places the
fresh raw disk file in the registry slot. -/
def createLimaDisk (c : Config) (o : Oracle) (fs : FS) : StepResult :=
  if o.createFails then ⟨fs, [.diskCreate], some .createFailed⟩
  else ⟨fs.update c.slot (some (.file "raw")), [.diskCreate], none⟩

/-- Lines 134-137, `persistentDiskExists`: stat of the persistent path. -/
def persistentDiskExists (c : Config) (fs : FS) : Bool :=
  fs.stat c.userDataDiskPath

/-- Lines 203-214 of `attachPersistentDiskToLimaDisk`: when the persistent
file is missing, create its parent directory if absent, then move the
slot's file to the persistent path. `attachInvoked` marks the entry into
link repair. -/
def moveToPersistent (c : Config) (fs : FS) : StepResult :=
  if persistentDiskExists c fs then ⟨fs, [.attachInvoked], none⟩
  else
    let dd := c.disksDir
    let fs1 := if fs.stat dd then fs else fs.mkdirAll dd
    let ops1 := if fs.stat dd then [Op.attachInvoked] else [Op.attachInvoked, Op.mkdirAll dd]
    match FS.rename fs1 c.slot c.userDataDiskPath with
    | none => ⟨fs1, ops1 ++ [.rename c.slot c.userDataDiskPath], some .moveFailed⟩
    | some fs2 => ⟨fs2, ops1 ++ [.rename c.slot c.userDataDiskPath], none⟩

/-- Lines 216-234 of `attachPersistentDiskToLimaDisk`: stat the slot and
remove its occupant when present (a remove after a successful stat cannot
fail in the model, so the Go remove-error return at lines 224-227 has no
failing case), then symlink the slot to the persistent path. -/
def clearSlotAndLink (c : Config) (fs : FS) : StepResult :=
  let lp := c.slot
  let cleared : StepResult :=
    match fs lp with
    | some _ => ⟨fs.update lp none, [.remove lp], none⟩
    | none => ⟨fs, [], none⟩
  cleared.andThen fun fsB =>
    ⟨fsB.symlinkIfPossible c.userDataDiskPath lp, [.symlink c.userDataDiskPath lp], none⟩

/-- Lines 201-235, `attachPersistentDiskToLimaDisk` (link repair): the move
stage followed by the clear-and-symlink stage. -/
def attachPersistentDiskToLimaDisk (c : Config) (fs : FS) : StepResult :=
  (moveToPersistent c fs).andThen fun fsA => clearSlotAndLink c fsA

/-- Lines 81-100 of `EnsureUserDataDisk`: the vz format-normalization
block. Inspect the persistent disk's format; when it is not raw, convert
it and re-run link repair (the rename broke any symlink to it). -/
def formatPhase (c : Config) (o : Oracle) (fs : FS) : StepResult :=
  if c.vmType == "vz" then
    match getDiskInfo o fs c.userDataDiskPath with
    | .error e => ⟨fs, [.qemuInfo c.userDataDiskPath], some e⟩
    | .ok format =>
      if format ≠ "raw" then
        let r := (convertToRaw c o fs).andThen fun fs1 =>
          attachPersistentDiskToLimaDisk c fs1
        ⟨r.fs, .qemuInfo c.userDataDiskPath :: r.ops, r.err⟩
      else ⟨fs, [.qemuInfo c.userDataDiskPath], none⟩
  else ⟨fs, [], none⟩

/-- Lines 102-114 of `EnsureUserDataDisk`: link verification. Read the slot
as a symlink (total under the collaborator contract, so the Go error
return at lines 106-108 has no failing case) and repair when the target
differs from the persistent path. -/
def linkVerify (c : Config) (fs : FS) : StepResult :=
  let loc := fs.readlinkIfPossible c.slot
  if loc ≠ c.userDataDiskPath then attachPersistentDiskToLimaDisk c fs
  else ⟨fs, [], none⟩

/-- Lines 78-122 of `EnsureUserDataDisk`: everything before lock
clearance. -/
def ensureMain (c : Config) (o : Oracle) (fs : FS) : StepResult :=
  if limaDiskExists o then
    let r := (formatPhase c o fs).andThen fun fs1 => linkVerify c fs1
    ⟨r.fs, .diskLs :: r.ops, r.err⟩
  else
    let r := (createLimaDisk c o fs).andThen fun fs1 =>
      attachPersistentDiskToLimaDisk c fs1
    ⟨r.fs, .diskLs :: r.ops, r.err⟩

/-- Lines 237-241, `limaDiskIsLocked`: stat of the lock marker path. -/
def limaDiskIsLocked (c : Config) (fs : FS) : Bool :=
  fs.stat c.lock

/-- Lines 243-249, `unlockLimaDisk`: `disk unlock finch`; the collaborator
contract is that a successful unlock removes the `in_use_by` marker. -/
def unlockLimaDisk (c : Config) (o : Oracle) (fs : FS) : StepResult :=
  if o.unlockFails then ⟨fs, [.diskUnlock], some .unlockFailed⟩
  else ⟨fs.update c.lock none, [.diskUnlock], none⟩

/-- Lines 124-129 of `EnsureUserDataDisk`: lock clearance. -/
def lockPhase (c : Config) (o : Oracle) (fs : FS) : StepResult :=
  if limaDiskIsLocked c fs then unlockLimaDisk c o fs
  else ⟨fs, [], none⟩

/-- Lines 77-132, `EnsureUserDataDisk`: the whole reconciliation. -/
def EnsureUserDataDisk (c : Config) (o : Oracle) (fs : FS) : StepResult :=
  (ensureMain c o fs).andThen fun fs1 => lockPhase c o fs1

/-- A non-degenerate configuration: the persistent disk path is non-empty
and the five paths the reconciler touches do not collide (true of every
real deployment, where the persistent path lives under the user home and
the slot under the lima home). -/
structure GoodConfig (c : Config) : Prop where
  dp_ne_empty : c.userDataDiskPath ≠ ""
  dp_ne_slot : c.userDataDiskPath ≠ c.slot
  dp_ne_lock : c.userDataDiskPath ≠ c.lock
  qcow_ne_slot : c.qcow ≠ c.slot
  qcow_ne_lock : c.qcow ≠ c.lock
  dir_ne_dp : c.disksDir ≠ c.userDataDiskPath
  dir_ne_slot : c.disksDir ≠ c.slot
  dir_ne_lock : c.disksDir ≠ c.lock
  dir_ne_qcow : c.disksDir ≠ c.qcow

/-- The operations that change registry or filesystem state, as a Bool
test on the trace (conversion invocations). -/
def isConvertOp : Op → Bool
  | .qemuConvert _ _ _ => true
  | _ => false

/-- The condition under which disk.go reaches the conversion call: the
registry disk exists, the backend is vz, and the inspect tool reports a
format other than raw (it reports the format of the regular file at the
persistent path, when its own invocation succeeds). -/
def wouldConvert (c : Config) (o : Oracle) (fs : FS) : Bool :=
  limaDiskExists o && (c.vmType == "vz") && !o.infoFails &&
    (match fs c.userDataDiskPath with
     | some (.file f) => f != "raw"
     | _ => false)

/-- The operations the pre-lock part of a run can record. -/
def mainOp (c : Config) (op : Op) : Prop :=
  op = Op.diskLs ∨ op = Op.qemuInfo c.userDataDiskPath ∨
  op = Op.rename c.userDataDiskPath c.qcow ∨
  op = Op.qemuConvert "qcow2" c.qcow c.userDataDiskPath ∨
  op = Op.diskCreate ∨ op = Op.attachInvoked ∨ op = Op.mkdirAll c.disksDir ∨
  op = Op.rename c.slot c.userDataDiskPath ∨ op = Op.remove c.slot ∨
  op = Op.symlink c.userDataDiskPath c.slot

/-! ### Concrete fixtures for witnesses and counterexamples -/

/-- A vz configuration with a lima home and persistent disk path. -/
def cW : Config := ⟨"vz", "/l", "/h/.f/datadisk"⟩

/-- The empty filesystem. -/
def fsEmpty : FS := fun _ => none

/-- A filesystem holding only a qcow2-format persistent disk file. -/
def fsQcow2 : FS := fun p => if p = "/h/.f/datadisk" then some (.file "qcow2") else none

/-- A filesystem holding only a vmdk-format persistent disk file. -/
def fsVmdk : FS := fun p => if p = "/h/.f/datadisk" then some (.file "vmdk") else none

/-- Registry query fails; every other tool succeeds. -/
def oAbsent : Oracle := ⟨.cmdError, false, false, false, false⟩

/-- Registry reports the finch disk; every tool succeeds. -/
def oPresent : Oracle := ⟨.ok "finch", false, false, false, false⟩

/-- A filesystem in the fully converged shape, with the lock marker
present. -/
def fsReady : FS := fun p =>
  if p = "/h/.f/datadisk" then some (.file "raw")
  else if p = "/l/_disks/finch/datadisk" then some (.symlink "/h/.f/datadisk")
  else if p = "/l/_disks/finch/in_use_by" then some (.file "lock")
  else none

/-- Registry reports the finch disk; unlock fails; other tools succeed. -/
def oUnlockFail : Oracle := ⟨.ok "finch", false, false, false, true⟩

/-- Registry reports the finch disk; the inspect tool fails. -/
def oInfoFail : Oracle := ⟨.ok "finch", true, false, false, false⟩

/-! ### Basic lemmas about the filesystem model -/

theorem FS.update_self (fs : FS) (p : String) (e : Option FSEntry) :
    fs.update p e p = e := by
  simp [FS.update]

theorem FS.update_ne (fs : FS) {q p : String} (e : Option FSEntry) (h : q ≠ p) :
    fs.update p e q = fs q := by
  simp [FS.update, h]

theorem FS.update_update (fs : FS) (p : String) (a b : Option FSEntry) :
    (fs.update p a).update p b = fs.update p b := by
  funext q
  by_cases h : q = p <;> simp [FS.update, h]

/-- Reading a symlink target different from `""` pins the slot entry. -/
theorem readlink_eq_some (fs : FS) (p t : String)
    (h : fs.readlinkIfPossible p = t) (ht : t ≠ "") :
    fs p = some (.symlink t) := by
  unfold FS.readlinkIfPossible at h
  match hp : fs p with
  | some (.symlink t') => simp only [hp] at h; rw [h]
  | some (.file f) => simp only [hp] at h; exact absurd h.symm ht
  | some .dir => simp only [hp] at h; exact absurd h.symm ht
  | none => simp only [hp] at h; exact absurd h.symm ht

/-! ### Distinctness of the derived paths -/

theorem Config.qcow_ne_dp (c : Config) : c.qcow ≠ c.userDataDiskPath := by
  intro h
  have hl := congrArg String.length h
  have h6 : (".qcow2" : String).length = 6 := rfl
  simp only [Config.qcow, String.length_append] at hl
  omega

theorem Config.slot_ne_lock (c : Config) : c.slot ≠ c.lock := by
  intro h
  have hl := congrArg String.length h
  have h9 : ("/datadisk" : String).length = 9 := rfl
  have h10 : ("/in_use_by" : String).length = 10 := rfl
  simp only [Config.slot, Config.lock, limaPath, lockPath, String.length_append] at hl
  omega

/-! ### Sequencing lemmas -/

theorem StepResult.andThen_of_err_none (r : StepResult) (k : FS → StepResult)
    (h : r.err = none) :
    r.andThen k = ⟨(k r.fs).fs, r.ops ++ (k r.fs).ops, (k r.fs).err⟩ := by
  unfold StepResult.andThen
  rw [h]

theorem StepResult.andThen_of_err_some (r : StepResult) (k : FS → StepResult)
    (e : DiskErr) (h : r.err = some e) :
    r.andThen k = r := by
  unfold StepResult.andThen
  rw [h]

/-! ### Inversion of the query helpers -/

theorem getDiskInfo_ok_inv (o : Oracle) (fs : FS) (p f : String)
    (h : getDiskInfo o fs p = .ok f) :
    o.infoFails = false ∧ fs p = some (.file f) := by
  unfold getDiskInfo at h
  cases hi : o.infoFails with
  | true => rw [hi] at h; simp at h
  | false =>
    rw [hi] at h
    simp only [Bool.false_eq_true, if_false] at h
    refine ⟨rfl, ?_⟩
    match hp : fs p with
    | some (.file f') => simp only [hp, Except.ok.injEq] at h; rw [h]
    | some (.symlink t) => simp only [hp] at h; exact Except.noConfusion h
    | some .dir => simp only [hp] at h; exact Except.noConfusion h
    | none => simp only [hp] at h; exact Except.noConfusion h

/-! ### Link repair: stage characterizations -/

/-- The clear-and-symlink stage always succeeds, removes the slot occupant
exactly when one is present, and leaves the slot a symlink to the
persistent path. -/
theorem clearSlotAndLink_spec (c : Config) (fs : FS) :
    clearSlotAndLink c fs =
      ⟨fs.update c.slot (some (.symlink c.userDataDiskPath)),
       if (fs c.slot).isSome then
         [Op.remove c.slot, Op.symlink c.userDataDiskPath c.slot]
       else [Op.symlink c.userDataDiskPath c.slot],
       none⟩ := by
  unfold clearSlotAndLink
  cases hs : fs c.slot with
  | some e =>
    simp [StepResult.andThen, FS.symlinkIfPossible, FS.update_self, FS.update_update, hs]
  | none =>
    simp [StepResult.andThen, FS.symlinkIfPossible, hs]

/-- The move stage is a no-op (up to the marker) when the persistent disk
file already exists. -/
theorem moveToPersistent_of_dp_exists (c : Config) (fs : FS) (e : FSEntry)
    (he : fs c.userDataDiskPath = some e) :
    moveToPersistent c fs = ⟨fs, [.attachInvoked], none⟩ := by
  unfold moveToPersistent
  simp [persistentDiskExists, FS.stat, he]

/-- The move stage when the persistent file is missing and the slot holds
an entry: the parent directory is created when absent and the slot entry
moves to the persistent path. -/
theorem moveToPersistent_of_dp_missing_slot (c : Config) (fs : FS) (e : FSEntry)
    (hdp : fs c.userDataDiskPath = none) (hs : fs c.slot = some e)
    (hds : c.disksDir ≠ c.slot) :
    moveToPersistent c fs =
      ⟨((if fs.stat c.disksDir then fs else fs.mkdirAll c.disksDir).update c.slot none).update
          c.userDataDiskPath (some e),
       (if fs.stat c.disksDir then [Op.attachInvoked]
        else [Op.attachInvoked, Op.mkdirAll c.disksDir]) ++
         [Op.rename c.slot c.userDataDiskPath],
       none⟩ := by
  have hp : persistentDiskExists c fs = false := by
    simp [persistentDiskExists, FS.stat, hdp]
  have hslot1 : (if fs.stat c.disksDir then fs else fs.mkdirAll c.disksDir) c.slot = some e := by
    cases hdd : fs.stat c.disksDir with
    | true => simp only [if_true]; exact hs
    | false =>
      simp only [Bool.false_eq_true, if_false, FS.mkdirAll]
      rw [FS.update_ne _ _ (Ne.symm hds)]
      exact hs
  have hr : FS.rename (if fs.stat c.disksDir then fs else fs.mkdirAll c.disksDir) c.slot
        c.userDataDiskPath =
      some (((if fs.stat c.disksDir then fs else fs.mkdirAll c.disksDir).update c.slot
        none).update c.userDataDiskPath (some e)) := by
    unfold FS.rename
    rw [hslot1]
  unfold moveToPersistent
  rw [hp]
  simp only [Bool.false_eq_true, if_false, hr]

/-- The move stage when both the persistent file and the slot are missing:
the rename has no source and fails. -/
theorem moveToPersistent_of_dp_missing_noslot (c : Config) (fs : FS)
    (hdp : fs c.userDataDiskPath = none) (hs : fs c.slot = none)
    (hds : c.disksDir ≠ c.slot) :
    moveToPersistent c fs =
      ⟨(if fs.stat c.disksDir then fs else fs.mkdirAll c.disksDir),
       (if fs.stat c.disksDir then [Op.attachInvoked]
        else [Op.attachInvoked, Op.mkdirAll c.disksDir]) ++
         [Op.rename c.slot c.userDataDiskPath],
       some .moveFailed⟩ := by
  have hp : persistentDiskExists c fs = false := by
    simp [persistentDiskExists, FS.stat, hdp]
  have hslot1 : (if fs.stat c.disksDir then fs else fs.mkdirAll c.disksDir) c.slot = none := by
    cases hdd : fs.stat c.disksDir with
    | true => simp only [if_true]; exact hs
    | false =>
      simp only [Bool.false_eq_true, if_false, FS.mkdirAll]
      rw [FS.update_ne _ _ (Ne.symm hds)]
      exact hs
  have hr : FS.rename (if fs.stat c.disksDir then fs else fs.mkdirAll c.disksDir) c.slot
      c.userDataDiskPath = none := by
    unfold FS.rename
    rw [hslot1]
  unfold moveToPersistent
  rw [hp]
  simp only [Bool.false_eq_true, if_false, hr]

/-- Link repair when the persistent disk file already exists: no move, the
slot occupant (if any) is removed, and the slot becomes a symlink. It
cannot fail. -/
theorem attach_of_dp_exists (c : Config) (fs : FS) (e : FSEntry)
    (he : fs c.userDataDiskPath = some e) :
    attachPersistentDiskToLimaDisk c fs =
      ⟨fs.update c.slot (some (.symlink c.userDataDiskPath)),
       Op.attachInvoked ::
         (if (fs c.slot).isSome then
            [Op.remove c.slot, Op.symlink c.userDataDiskPath c.slot]
          else [Op.symlink c.userDataDiskPath c.slot]),
       none⟩ := by
  unfold attachPersistentDiskToLimaDisk
  rw [moveToPersistent_of_dp_exists c fs e he, StepResult.andThen_of_err_none _ _ rfl]
  simp only [clearSlotAndLink_spec, List.singleton_append]

/-- Link repair when the persistent file is missing and the slot holds an
entry: the slot entry is moved to the persistent path and the slot becomes
a symlink. -/
theorem attach_of_dp_missing_slot (c : Config) (fs : FS) (e : FSEntry)
    (hdp : fs c.userDataDiskPath = none) (hs : fs c.slot = some e)
    (hds : c.disksDir ≠ c.slot) (hd : c.userDataDiskPath ≠ c.slot) :
    attachPersistentDiskToLimaDisk c fs =
      ⟨((((if fs.stat c.disksDir then fs else fs.mkdirAll c.disksDir).update c.slot none).update
          c.userDataDiskPath (some e)).update c.slot (some (.symlink c.userDataDiskPath))),
       (if fs.stat c.disksDir then [Op.attachInvoked]
        else [Op.attachInvoked, Op.mkdirAll c.disksDir]) ++
         [Op.rename c.slot c.userDataDiskPath, Op.symlink c.userDataDiskPath c.slot],
       none⟩ := by
  unfold attachPersistentDiskToLimaDisk
  rw [moveToPersistent_of_dp_missing_slot c fs e hdp hs hds,
    StepResult.andThen_of_err_none _ _ rfl]
  have hmid : (((if fs.stat c.disksDir then fs else fs.mkdirAll c.disksDir).update c.slot
      none).update c.userDataDiskPath (some e)) c.slot = none := by
    rw [FS.update_ne _ _ (Ne.symm hd), FS.update_self]
  simp only [clearSlotAndLink_spec, hmid, Option.isSome_none, Bool.false_eq_true, if_false,
    List.append_assoc, List.cons_append, List.nil_append]

/-- Link repair when the persistent file and the slot are both missing:
the move fails and nothing further happens. -/
theorem attach_of_dp_missing_noslot (c : Config) (fs : FS)
    (hdp : fs c.userDataDiskPath = none) (hs : fs c.slot = none)
    (hds : c.disksDir ≠ c.slot) :
    attachPersistentDiskToLimaDisk c fs =
      ⟨(if fs.stat c.disksDir then fs else fs.mkdirAll c.disksDir),
       (if fs.stat c.disksDir then [Op.attachInvoked]
        else [Op.attachInvoked, Op.mkdirAll c.disksDir]) ++
         [Op.rename c.slot c.userDataDiskPath],
       some .moveFailed⟩ := by
  unfold attachPersistentDiskToLimaDisk
  rw [moveToPersistent_of_dp_missing_noslot c fs hdp hs hds,
    StepResult.andThen_of_err_some _ _ _ rfl]

/-- Whenever link repair succeeds, the slot ends as a symlink to the
persistent path (no side conditions needed). -/
theorem attach_slot_of_success (c : Config) (fs : FS)
    (h : (attachPersistentDiskToLimaDisk c fs).err = none) :
    (attachPersistentDiskToLimaDisk c fs).fs c.slot =
      some (.symlink c.userDataDiskPath) := by
  unfold attachPersistentDiskToLimaDisk at h ⊢
  cases hm : (moveToPersistent c fs).err with
  | some e =>
    rw [StepResult.andThen_of_err_some _ _ _ hm] at h
    rw [hm] at h
    cases h
  | none =>
    rw [StepResult.andThen_of_err_none _ _ hm]
    simp only [clearSlotAndLink_spec]
    exact FS.update_self _ _ _

/-- Link repair touches only the persistent path, the slot and the parent
directory. -/
theorem attach_frame (c : Config) (fs : FS) (q : String)
    (h1 : q ≠ c.userDataDiskPath) (h2 : q ≠ c.slot) (h3 : q ≠ c.disksDir) :
    (attachPersistentDiskToLimaDisk c fs).fs q = fs q := by
  have hclear : ∀ fsX : FS, (clearSlotAndLink c fsX).fs q = fsX q := by
    intro fsX
    rw [clearSlotAndLink_spec]
    exact FS.update_ne _ _ h2
  have hfs1 : (if fs.stat c.disksDir then fs else fs.mkdirAll c.disksDir) q = fs q := by
    cases hdd : fs.stat c.disksDir with
    | true => simp only [if_true]
    | false =>
      simp only [Bool.false_eq_true, if_false, FS.mkdirAll]
      exact FS.update_ne _ _ h3
  have hmove : (moveToPersistent c fs).fs q = fs q := by
    cases hdp : fs c.userDataDiskPath with
    | some e => rw [moveToPersistent_of_dp_exists c fs e hdp]
    | none =>
      unfold moveToPersistent
      have hp : persistentDiskExists c fs = false := by
        simp [persistentDiskExists, FS.stat, hdp]
      rw [hp]
      simp only [Bool.false_eq_true, if_false]
      cases hs1 : (if fs.stat c.disksDir then fs else fs.mkdirAll c.disksDir) c.slot with
      | none =>
        have hr : FS.rename (if fs.stat c.disksDir then fs else fs.mkdirAll c.disksDir)
            c.slot c.userDataDiskPath = none := by
          unfold FS.rename
          rw [hs1]
        simp only [hr]
        exact hfs1
      | some e =>
        have hr : FS.rename (if fs.stat c.disksDir then fs else fs.mkdirAll c.disksDir)
            c.slot c.userDataDiskPath =
            some (((if fs.stat c.disksDir then fs else fs.mkdirAll c.disksDir).update c.slot
              none).update c.userDataDiskPath (some e)) := by
          unfold FS.rename
          rw [hs1]
        simp only [hr]
        rw [FS.update_ne _ _ h1, FS.update_ne _ _ h2]
        exact hfs1
  unfold attachPersistentDiskToLimaDisk
  cases hm : (moveToPersistent c fs).err with
  | some e =>
    rw [StepResult.andThen_of_err_some _ _ _ hm]
    exact hmove
  | none =>
    rw [StepResult.andThen_of_err_none _ _ hm]
    rw [hclear]
    exact hmove

/-- The operations link repair can record. -/
theorem attach_ops_mem (c : Config) (fs : FS) :
    ∀ op ∈ (attachPersistentDiskToLimaDisk c fs).ops,
      op = .attachInvoked ∨ op = .mkdirAll c.disksDir ∨
      op = .rename c.slot c.userDataDiskPath ∨ op = .remove c.slot ∨
      op = .symlink c.userDataDiskPath c.slot := by
  have hclear : ∀ fsX : FS, ∀ op ∈ (clearSlotAndLink c fsX).ops,
      op = Op.remove c.slot ∨ op = Op.symlink c.userDataDiskPath c.slot := by
    intro fsX op hop
    rw [clearSlotAndLink_spec] at hop
    by_cases h : (fsX c.slot).isSome = true <;> simp [h] at hop <;> tauto
  have hmove : ∀ op ∈ (moveToPersistent c fs).ops,
      op = Op.attachInvoked ∨ op = Op.mkdirAll c.disksDir ∨
      op = Op.rename c.slot c.userDataDiskPath := by
    intro op hop
    unfold moveToPersistent at hop
    by_cases hp : persistentDiskExists c fs = true
    · simp [hp] at hop
      tauto
    · simp only [hp, if_false] at hop
      rcases hre : FS.rename (if fs.stat c.disksDir then fs else fs.mkdirAll c.disksDir)
          c.slot c.userDataDiskPath with _ | fs2 <;>
        rw [hre] at hop <;>
        by_cases hdd : fs.stat c.disksDir = true <;>
        simp [hdd] at hop <;>
        tauto
  intro op hop
  unfold attachPersistentDiskToLimaDisk at hop
  cases hm : (moveToPersistent c fs).err with
  | some e =>
    rw [StepResult.andThen_of_err_some _ _ _ hm] at hop
    rcases hmove op hop with h | h | h <;> tauto
  | none =>
    rw [StepResult.andThen_of_err_none _ _ hm] at hop
    rcases List.mem_append.mp hop with h | h
    · rcases hmove op h with h' | h' | h' <;> tauto
    · rcases hclear _ op h with h' | h' <;> tauto

/-- Link repair records its entry marker exactly once. -/
theorem attach_marker_count (c : Config) (fs : FS) :
    (attachPersistentDiskToLimaDisk c fs).ops.count Op.attachInvoked = 1 := by
  have hclear : ∀ fsX : FS, (clearSlotAndLink c fsX).ops.count Op.attachInvoked = 0 := by
    intro fsX
    rw [clearSlotAndLink_spec]
    by_cases h : (fsX c.slot).isSome = true <;> simp [h, List.count_cons]
  have hmove : (moveToPersistent c fs).ops.count Op.attachInvoked = 1 := by
    unfold moveToPersistent
    by_cases hp : persistentDiskExists c fs = true
    · simp [hp, List.count_cons]
    · simp only [hp, if_false]
      rcases hre : FS.rename (if fs.stat c.disksDir then fs else fs.mkdirAll c.disksDir)
          c.slot c.userDataDiskPath with _ | fs2 <;>
        by_cases hdd : fs.stat c.disksDir = true <;>
        simp [hdd, List.count_cons, List.count_append]
  unfold attachPersistentDiskToLimaDisk
  cases hm : (moveToPersistent c fs).err with
  | some e =>
    rw [StepResult.andThen_of_err_some _ _ _ hm]
    exact hmove
  | none =>
    rw [StepResult.andThen_of_err_none _ _ hm]
    simp only [List.count_append, hclear, hmove]

/-- `convertToRaw` on a present persistent file: the rename succeeds, the
conversion is invoked with fixed source format qcow2, and on success the
persistent path holds a raw file while the old bytes stay at the qcow
sibling. -/
theorem convertToRaw_of_present (c : Config) (o : Oracle) (fs : FS) (e : FSEntry)
    (he : fs c.userDataDiskPath = some e) :
    convertToRaw c o fs =
      if o.convertFails then
        ⟨(fs.update c.userDataDiskPath none).update c.qcow (some e),
         [Op.rename c.userDataDiskPath c.qcow,
          Op.qemuConvert "qcow2" c.qcow c.userDataDiskPath],
         some .convertFailed⟩
      else
        ⟨((fs.update c.userDataDiskPath none).update c.qcow (some e)).update c.userDataDiskPath
            (some (.file "raw")),
         [Op.rename c.userDataDiskPath c.qcow,
          Op.qemuConvert "qcow2" c.qcow c.userDataDiskPath],
         none⟩ := by
  unfold convertToRaw
  have hr : FS.rename fs c.userDataDiskPath c.qcow =
      some ((fs.update c.userDataDiskPath none).update c.qcow (some e)) := by
    unfold FS.rename
    rw [he]
  simp only [hr]

theorem FS.rename_frame (fs fs' : FS) (src dst q : String)
    (h : FS.rename fs src dst = some fs') (h1 : q ≠ src) (h2 : q ≠ dst) :
    fs' q = fs q := by
  unfold FS.rename at h
  cases hs : fs src with
  | none => rw [hs] at h; cases h
  | some e =>
    rw [hs] at h
    cases h
    rw [FS.update_ne _ _ h2, FS.update_ne _ _ h1]

/-- Conversion touches only the persistent path and its qcow sibling. -/
theorem convertToRaw_frame (c : Config) (o : Oracle) (fs : FS) (q : String)
    (h1 : q ≠ c.userDataDiskPath) (h2 : q ≠ c.qcow) :
    (convertToRaw c o fs).fs q = fs q := by
  unfold convertToRaw
  rcases hre : FS.rename fs c.userDataDiskPath c.qcow with _ | fs1
  · simp only [hre]
  · have hfs1 : fs1 q = fs q := FS.rename_frame fs fs1 _ _ q hre h1 h2
    simp only [hre]
    cases hcf : o.convertFails with
    | true => simp only [if_true]; exact hfs1
    | false =>
      simp only [Bool.false_eq_true, if_false]
      rw [FS.update_ne _ _ h1]
      exact hfs1

theorem convertToRaw_ops_mem (c : Config) (o : Oracle) (fs : FS) :
    ∀ op ∈ (convertToRaw c o fs).ops,
      op = Op.rename c.userDataDiskPath c.qcow ∨
      op = Op.qemuConvert "qcow2" c.qcow c.userDataDiskPath := by
  intro op hop
  unfold convertToRaw at hop
  rcases hre : FS.rename fs c.userDataDiskPath c.qcow with _ | fs1
  · simp only [hre] at hop
    simp at hop
    tauto
  · simp only [hre] at hop
    cases hcf : o.convertFails <;> rw [hcf] at hop <;> simp at hop <;> tauto

/-! ### The query phases -/

theorem formatPhase_of_not_vz (c : Config) (o : Oracle) (fs : FS)
    (h : c.vmType ≠ "vz") :
    formatPhase c o fs = ⟨fs, [], none⟩ := by
  unfold formatPhase
  simp [h]

theorem formatPhase_of_info_error (c : Config) (o : Oracle) (fs : FS) (e : DiskErr)
    (hvz : c.vmType = "vz") (h : getDiskInfo o fs c.userDataDiskPath = .error e) :
    formatPhase c o fs = ⟨fs, [.qemuInfo c.userDataDiskPath], some e⟩ := by
  unfold formatPhase
  simp [hvz, h]

theorem formatPhase_of_raw (c : Config) (o : Oracle) (fs : FS)
    (hvz : c.vmType = "vz") (h : getDiskInfo o fs c.userDataDiskPath = .ok "raw") :
    formatPhase c o fs = ⟨fs, [.qemuInfo c.userDataDiskPath], none⟩ := by
  unfold formatPhase
  simp [hvz, h]

theorem formatPhase_of_nonraw (c : Config) (o : Oracle) (fs : FS) (format : String)
    (hvz : c.vmType = "vz") (h : getDiskInfo o fs c.userDataDiskPath = .ok format)
    (hne : format ≠ "raw") :
    formatPhase c o fs =
      (let r := (convertToRaw c o fs).andThen fun fs1 =>
        attachPersistentDiskToLimaDisk c fs1
       ⟨r.fs, .qemuInfo c.userDataDiskPath :: r.ops, r.err⟩) := by
  unfold formatPhase
  simp [hvz, h, hne]

theorem lockPhase_of_unlocked (c : Config) (o : Oracle) (fs : FS)
    (h : fs c.lock = none) :
    lockPhase c o fs = ⟨fs, [], none⟩ := by
  unfold lockPhase limaDiskIsLocked
  simp [FS.stat, h]

theorem lockPhase_of_locked (c : Config) (o : Oracle) (fs : FS) (e : FSEntry)
    (h : fs c.lock = some e) :
    lockPhase c o fs =
      (if o.unlockFails then ⟨fs, [.diskUnlock], some .unlockFailed⟩
       else ⟨fs.update c.lock none, [.diskUnlock], none⟩) := by
  unfold lockPhase limaDiskIsLocked unlockLimaDisk
  simp [FS.stat, h]

/-- After a successful lock-clearance phase the lock marker is absent. -/
theorem lockPhase_lock_of_success (c : Config) (o : Oracle) (fs : FS)
    (h : (lockPhase c o fs).err = none) :
    (lockPhase c o fs).fs c.lock = none := by
  cases hl : fs c.lock with
  | none => rw [lockPhase_of_unlocked c o fs hl]; exact hl
  | some e =>
    rw [lockPhase_of_locked c o fs e hl] at h ⊢
    cases hu : o.unlockFails with
    | true => rw [hu] at h; simp at h
    | false =>
      simp only [Bool.false_eq_true, if_false]
      exact FS.update_self _ _ _

theorem lockPhase_frame (c : Config) (o : Oracle) (fs : FS) (q : String)
    (h : q ≠ c.lock) :
    (lockPhase c o fs).fs q = fs q := by
  cases hl : fs c.lock with
  | none => rw [lockPhase_of_unlocked c o fs hl]
  | some e =>
    rw [lockPhase_of_locked c o fs e hl]
    cases hu : o.unlockFails with
    | true => simp only [if_true]
    | false =>
      simp only [Bool.false_eq_true, if_false]
      exact FS.update_ne _ _ h

theorem lockPhase_ops_mem (c : Config) (o : Oracle) (fs : FS) :
    ∀ op ∈ (lockPhase c o fs).ops, op = Op.diskUnlock := by
  intro op hop
  cases hl : fs c.lock with
  | none => rw [lockPhase_of_unlocked c o fs hl] at hop; simp at hop
  | some e =>
    rw [lockPhase_of_locked c o fs e hl] at hop
    cases hu : o.unlockFails <;> rw [hu] at hop <;> simp at hop <;> exact hop

/-- The unlock command runs exactly when the marker is present at the
start of the lock-clearance phase. -/
theorem lockPhase_unlock_iff (c : Config) (o : Oracle) (fs : FS) :
    Op.diskUnlock ∈ (lockPhase c o fs).ops ↔ (fs c.lock).isSome = true := by
  cases hl : fs c.lock with
  | none => rw [lockPhase_of_unlocked c o fs hl]; simp
  | some e =>
    rw [lockPhase_of_locked c o fs e hl]
    cases hu : o.unlockFails <;> simp [hu]

theorem attach_ops_mainOp (c : Config) (fs : FS) :
    ∀ op ∈ (attachPersistentDiskToLimaDisk c fs).ops, mainOp c op := by
  intro op hop
  rcases attach_ops_mem c fs op hop with h | h | h | h | h <;> unfold mainOp <;> tauto

theorem linkVerify_ops_mem (c : Config) (fs : FS) :
    ∀ op ∈ (linkVerify c fs).ops, mainOp c op := by
  intro op hop
  unfold linkVerify at hop
  by_cases hloc : fs.readlinkIfPossible c.slot = c.userDataDiskPath
  · simp [hloc] at hop
  · simp only [ne_eq, hloc, not_false_eq_true, if_true] at hop
    exact attach_ops_mainOp c fs op hop

theorem formatPhase_ops_mem (c : Config) (o : Oracle) (fs : FS) :
    ∀ op ∈ (formatPhase c o fs).ops, mainOp c op := by
  intro op hop
  by_cases hvz : c.vmType = "vz"
  · rcases hinfo : getDiskInfo o fs c.userDataDiskPath with e | format
    · rw [formatPhase_of_info_error c o fs e hvz hinfo] at hop
      simp at hop
      unfold mainOp
      tauto
    · by_cases hraw : format = "raw"
      · rw [hraw] at hinfo
        rw [formatPhase_of_raw c o fs hvz hinfo] at hop
        simp at hop
        unfold mainOp
        tauto
      · rw [formatPhase_of_nonraw c o fs format hvz hinfo hraw] at hop
        simp only [List.mem_cons] at hop
        rcases hop with h | h
        · unfold mainOp; tauto
        · cases hcv : (convertToRaw c o fs).err with
          | some e =>
            rw [StepResult.andThen_of_err_some _ _ _ hcv] at h
            rcases convertToRaw_ops_mem c o fs op h with h' | h' <;> unfold mainOp <;> tauto
          | none =>
            rw [StepResult.andThen_of_err_none _ _ hcv] at h
            rcases List.mem_append.mp h with h' | h'
            · rcases convertToRaw_ops_mem c o fs op h' with h'' | h'' <;>
                unfold mainOp <;> tauto
            · exact attach_ops_mainOp c _ op h'
  · rw [formatPhase_of_not_vz c o fs hvz] at hop
    simp at hop

theorem createLimaDisk_ops_mem (c : Config) (o : Oracle) (fs : FS) :
    ∀ op ∈ (createLimaDisk c o fs).ops, op = Op.diskCreate := by
  intro op hop
  unfold createLimaDisk at hop
  cases hc : o.createFails <;> rw [hc] at hop <;> simp at hop <;> exact hop

theorem ensureMain_ops_mem (c : Config) (o : Oracle) (fs : FS) :
    ∀ op ∈ (ensureMain c o fs).ops, mainOp c op := by
  intro op hop
  unfold ensureMain at hop
  cases hex : limaDiskExists o with
  | true =>
    simp only [hex, if_true, List.mem_cons] at hop
    rcases hop with h | h
    · unfold mainOp; tauto
    · cases hf : (formatPhase c o fs).err with
      | some e =>
        rw [StepResult.andThen_of_err_some _ _ _ hf] at h
        exact formatPhase_ops_mem c o fs op h
      | none =>
        rw [StepResult.andThen_of_err_none _ _ hf] at h
        rcases List.mem_append.mp h with h' | h'
        · exact formatPhase_ops_mem c o fs op h'
        · exact linkVerify_ops_mem c _ op h'
  | false =>
    simp only [hex, Bool.false_eq_true, if_false, List.mem_cons] at hop
    rcases hop with h | h
    · unfold mainOp; tauto
    · cases hc : (createLimaDisk c o fs).err with
      | some e =>
        rw [StepResult.andThen_of_err_some _ _ _ hc] at h
        rw [createLimaDisk_ops_mem c o fs op h]
        unfold mainOp
        tauto
      | none =>
        rw [StepResult.andThen_of_err_none _ _ hc] at h
        rcases List.mem_append.mp h with h' | h'
        · rw [createLimaDisk_ops_mem c o fs op h']
          unfold mainOp
          tauto
        · exact attach_ops_mainOp c _ op h'

/-- A successful link-verification step leaves the slot a symlink to the
persistent path (when it repaired nothing, the already-read target pins the
slot entry, the persistent path being non-empty). -/
theorem linkVerify_success_slot (c : Config) (fsF : FS) (g : GoodConfig c)
    (hok : (linkVerify c fsF).err = none) :
    (linkVerify c fsF).fs c.slot = some (.symlink c.userDataDiskPath) := by
  unfold linkVerify at hok ⊢
  by_cases hloc : fsF.readlinkIfPossible c.slot = c.userDataDiskPath
  · simp only [ne_eq, hloc, not_true_eq_false, if_false]
    exact readlink_eq_some fsF c.slot _ hloc g.dp_ne_empty
  · simp only [ne_eq, hloc, not_false_eq_true, if_true] at hok ⊢
    exact attach_slot_of_success c fsF hok

/-- Link verification preserves a present persistent file. -/
theorem linkVerify_dp (c : Config) (fsF : FS) (e : FSEntry) (g : GoodConfig c)
    (hdp : fsF c.userDataDiskPath = some e) :
    (linkVerify c fsF).fs c.userDataDiskPath = some e := by
  unfold linkVerify
  by_cases hloc : fsF.readlinkIfPossible c.slot = c.userDataDiskPath
  · simp only [ne_eq, hloc, not_true_eq_false, if_false]
    exact hdp
  · simp only [ne_eq, hloc, not_false_eq_true, if_true]
    rw [attach_of_dp_exists c fsF e hdp]
    dsimp only
    rw [FS.update_ne _ _ g.dp_ne_slot]
    exact hdp

/-- A successful vz format phase leaves a raw file at the persistent
path. -/
theorem formatPhase_vz_dp (c : Config) (o : Oracle) (fs : FS) (g : GoodConfig c)
    (hvz : c.vmType = "vz") (hok : (formatPhase c o fs).err = none) :
    (formatPhase c o fs).fs c.userDataDiskPath = some (.file "raw") := by
  rcases hinfo : getDiskInfo o fs c.userDataDiskPath with e | format
  · rw [formatPhase_of_info_error c o fs e hvz hinfo] at hok
    simp at hok
  · obtain ⟨hi, hdp⟩ := getDiskInfo_ok_inv o fs _ format hinfo
    by_cases hraw : format = "raw"
    · rw [hraw] at hinfo hdp
      rw [formatPhase_of_raw c o fs hvz hinfo]
      exact hdp
    · rw [formatPhase_of_nonraw c o fs format hvz hinfo hraw] at hok ⊢
      simp only [] at hok ⊢
      cases hcv : (convertToRaw c o fs).err with
      | some e =>
        rw [StepResult.andThen_of_err_some _ _ _ hcv] at hok
        rw [hcv] at hok
        cases hok
      | none =>
        rw [StepResult.andThen_of_err_none _ _ hcv] at hok ⊢
        have hcf : o.convertFails = false := by
          cases hcf0 : o.convertFails with
          | false => rfl
          | true =>
            rw [convertToRaw_of_present c o fs _ hdp, hcf0] at hcv
            simp at hcv
        have hcvfs : (convertToRaw c o fs).fs c.userDataDiskPath = some (.file "raw") := by
          rw [convertToRaw_of_present c o fs _ hdp, hcf]
          simp only [Bool.false_eq_true, if_false]
          exact FS.update_self _ _ _
        rw [attach_of_dp_exists c _ _ hcvfs]
        dsimp only
        rw [FS.update_ne _ _ g.dp_ne_slot]
        exact hcvfs

/-- What a successful pre-lock phase guarantees: the slot is a symlink to
the persistent path; under vz with an existing registry disk the
persistent file is raw; in the creation branch the persistent file is the
moved raw registry file when it was absent, and is untouched otherwise. -/
theorem ensureMain_success (c : Config) (o : Oracle) (fs : FS) (g : GoodConfig c)
    (hok : (ensureMain c o fs).err = none) :
    (ensureMain c o fs).fs c.slot = some (.symlink c.userDataDiskPath) ∧
    (c.vmType = "vz" → limaDiskExists o = true →
      (ensureMain c o fs).fs c.userDataDiskPath = some (.file "raw")) ∧
    (limaDiskExists o = false →
      (ensureMain c o fs).fs c.userDataDiskPath =
        (match fs c.userDataDiskPath with
         | none => some (FSEntry.file "raw")
         | some e => some e)) := by
  unfold ensureMain at hok ⊢
  cases hex : limaDiskExists o with
  | true =>
    simp only [hex, if_true] at hok ⊢
    cases hf : (formatPhase c o fs).err with
    | some e =>
      rw [StepResult.andThen_of_err_some _ _ _ hf] at hok
      rw [hf] at hok
      cases hok
    | none =>
      rw [StepResult.andThen_of_err_none _ _ hf] at hok ⊢
      refine ⟨linkVerify_success_slot c _ g hok, ?_, ?_⟩
      · intro hvz _
        exact linkVerify_dp c _ _ g (formatPhase_vz_dp c o fs g hvz hf)
      · intro habs
        cases habs
  | false =>
    simp only [hex, Bool.false_eq_true, if_false] at hok ⊢
    cases hcr : (createLimaDisk c o fs).err with
    | some e =>
      rw [StepResult.andThen_of_err_some _ _ _ hcr] at hok
      rw [hcr] at hok
      cases hok
    | none =>
      rw [StepResult.andThen_of_err_none _ _ hcr] at hok ⊢
      have hcf : o.createFails = false := by
        cases h0 : o.createFails with
        | false => rfl
        | true => unfold createLimaDisk at hcr; rw [h0] at hcr; simp at hcr
      have hcfs : (createLimaDisk c o fs).fs = fs.update c.slot (some (.file "raw")) := by
        unfold createLimaDisk
        rw [hcf]
        simp only [Bool.false_eq_true, if_false]
      rw [hcfs] at hok ⊢
      cases hdp : fs c.userDataDiskPath with
      | some e =>
        have hdpC : (fs.update c.slot (some (FSEntry.file "raw"))) c.userDataDiskPath =
            some e := by
          rw [FS.update_ne _ _ g.dp_ne_slot]
          exact hdp
        rw [attach_of_dp_exists c _ e hdpC]
        dsimp only
        refine ⟨FS.update_self _ _ _, ?_, ?_⟩
        · intro _ habs
          cases habs
        · intro _
          rw [FS.update_ne _ _ g.dp_ne_slot, FS.update_ne _ _ g.dp_ne_slot]
          exact hdp
      | none =>
        have hdpC : (fs.update c.slot (some (FSEntry.file "raw"))) c.userDataDiskPath =
            none := by
          rw [FS.update_ne _ _ g.dp_ne_slot]
          exact hdp
        have hsC : (fs.update c.slot (some (FSEntry.file "raw"))) c.slot =
            some (FSEntry.file "raw") := FS.update_self _ _ _
        rw [attach_of_dp_missing_slot c _ _ hdpC hsC g.dir_ne_slot g.dp_ne_slot]
        dsimp only
        refine ⟨FS.update_self _ _ _, ?_, ?_⟩
        · intro _ habs
          cases habs
        · intro _
          rw [FS.update_ne _ _ g.dp_ne_slot, FS.update_self]

theorem formatPhase_frame (c : Config) (o : Oracle) (fs : FS) (q : String)
    (h1 : q ≠ c.userDataDiskPath) (h2 : q ≠ c.qcow) (h3 : q ≠ c.slot)
    (h4 : q ≠ c.disksDir) :
    (formatPhase c o fs).fs q = fs q := by
  by_cases hvz : c.vmType = "vz"
  · rcases hinfo : getDiskInfo o fs c.userDataDiskPath with e | format
    · rw [formatPhase_of_info_error c o fs e hvz hinfo]
    · by_cases hraw : format = "raw"
      · rw [hraw] at hinfo
        rw [formatPhase_of_raw c o fs hvz hinfo]
      · rw [formatPhase_of_nonraw c o fs format hvz hinfo hraw]
        dsimp only
        cases hcv : (convertToRaw c o fs).err with
        | some e =>
          rw [StepResult.andThen_of_err_some _ _ _ hcv]
          exact convertToRaw_frame c o fs q h1 h2
        | none =>
          rw [StepResult.andThen_of_err_none _ _ hcv]
          dsimp only
          rw [attach_frame c _ q h1 h3 h4]
          exact convertToRaw_frame c o fs q h1 h2
  · rw [formatPhase_of_not_vz c o fs hvz]

theorem linkVerify_frame (c : Config) (fs : FS) (q : String)
    (h1 : q ≠ c.userDataDiskPath) (h3 : q ≠ c.slot) (h4 : q ≠ c.disksDir) :
    (linkVerify c fs).fs q = fs q := by
  unfold linkVerify
  by_cases hloc : fs.readlinkIfPossible c.slot = c.userDataDiskPath
  · simp only [ne_eq, hloc, not_true_eq_false, if_false]
  · simp only [ne_eq, hloc, not_false_eq_true, if_true]
    exact attach_frame c fs q h1 h3 h4

theorem createLimaDisk_frame (c : Config) (o : Oracle) (fs : FS) (q : String)
    (h : q ≠ c.slot) :
    (createLimaDisk c o fs).fs q = fs q := by
  unfold createLimaDisk
  cases hc : o.createFails with
  | true => simp only [if_true]
  | false =>
    simp only [Bool.false_eq_true, if_false]
    exact FS.update_ne _ _ h

/-- The pre-lock phase touches only the persistent path, its qcow sibling,
the slot and the parent directory. -/
theorem ensureMain_frame (c : Config) (o : Oracle) (fs : FS) (q : String)
    (h1 : q ≠ c.userDataDiskPath) (h2 : q ≠ c.qcow) (h3 : q ≠ c.slot)
    (h4 : q ≠ c.disksDir) :
    (ensureMain c o fs).fs q = fs q := by
  unfold ensureMain
  cases hex : limaDiskExists o with
  | true =>
    simp only [if_true]
    cases hf : (formatPhase c o fs).err with
    | some e =>
      rw [StepResult.andThen_of_err_some _ _ _ hf]
      exact formatPhase_frame c o fs q h1 h2 h3 h4
    | none =>
      rw [StepResult.andThen_of_err_none _ _ hf]
      dsimp only
      rw [linkVerify_frame c _ q h1 h3 h4]
      exact formatPhase_frame c o fs q h1 h2 h3 h4
  | false =>
    simp only [Bool.false_eq_true, if_false]
    cases hcr : (createLimaDisk c o fs).err with
    | some e =>
      rw [StepResult.andThen_of_err_some _ _ _ hcr]
      exact createLimaDisk_frame c o fs q h3
    | none =>
      rw [StepResult.andThen_of_err_none _ _ hcr]
      dsimp only
      rw [attach_frame c _ q h1 h3 h4]
      exact createLimaDisk_frame c o fs q h3

/-- The pre-lock phase never moves the lock marker. -/
theorem ensureMain_lock (c : Config) (o : Oracle) (fs : FS) (g : GoodConfig c) :
    (ensureMain c o fs).fs c.lock = fs c.lock :=
  ensureMain_frame c o fs c.lock (Ne.symm g.dp_ne_lock) (Ne.symm g.qcow_ne_lock)
    (Ne.symm (Config.slot_ne_lock c)) (Ne.symm g.dir_ne_lock)

/-- A successful full run: the error of the main phase and of the lock
phase are both none, and the run is their sequential composition. -/
theorem ensure_success_split (c : Config) (o : Oracle) (fs : FS)
    (hok : (EnsureUserDataDisk c o fs).err = none) :
    (ensureMain c o fs).err = none ∧
    EnsureUserDataDisk c o fs =
      ⟨(lockPhase c o (ensureMain c o fs).fs).fs,
       (ensureMain c o fs).ops ++ (lockPhase c o (ensureMain c o fs).fs).ops,
       (lockPhase c o (ensureMain c o fs).fs).err⟩ := by
  unfold EnsureUserDataDisk at hok ⊢
  cases hm : (ensureMain c o fs).err with
  | some e =>
    rw [StepResult.andThen_of_err_some _ _ _ hm] at hok
    rw [hm] at hok
    cases hok
  | none =>
    exact ⟨rfl, StepResult.andThen_of_err_none _ _ hm⟩

/-- The invariant a successful run establishes: the slot is a symlink to
the persistent path, the lock marker is absent, and the persistent file is
raw when the backend is vz — provided the registry disk existed, or the
persistent file was absent or already raw (the creation branch performs no
conversion). -/
theorem ensure_success_invariant (c : Config) (o : Oracle) (fs : FS) (g : GoodConfig c)
    (hok : (EnsureUserDataDisk c o fs).err = none) :
    (EnsureUserDataDisk c o fs).fs c.slot = some (.symlink c.userDataDiskPath) ∧
    (EnsureUserDataDisk c o fs).fs c.lock = none ∧
    (c.vmType = "vz" →
      (limaDiskExists o = true ∨ fs c.userDataDiskPath = none ∨
        fs c.userDataDiskPath = some (.file "raw")) →
      (EnsureUserDataDisk c o fs).fs c.userDataDiskPath = some (.file "raw")) := by
  obtain ⟨hm, hsplit⟩ := ensure_success_split c o fs hok
  obtain ⟨hslot, hvzdp, hcreate⟩ := ensureMain_success c o fs g hm
  have hlockerr : (lockPhase c o (ensureMain c o fs).fs).err = none := by
    rw [hsplit] at hok
    exact hok
  have hlock_ne_slot : c.lock ≠ c.slot := Ne.symm (Config.slot_ne_lock c)
  refine ⟨?_, ?_, ?_⟩
  · rw [hsplit]
    dsimp only
    rw [lockPhase_frame c o _ c.slot (Ne.symm hlock_ne_slot)]
    exact hslot
  · rw [hsplit]
    dsimp only
    exact lockPhase_lock_of_success c o _ hlockerr
  · intro hvz hstart
    rw [hsplit]
    dsimp only
    rw [lockPhase_frame c o _ c.userDataDiskPath g.dp_ne_lock]
    rcases hstart with hex | hdp | hdp
    · exact hvzdp hvz hex
    · cases hex : limaDiskExists o with
      | true => exact hvzdp hvz hex
      | false =>
        have := hcreate hex
        rw [hdp] at this
        exact this
    · cases hex : limaDiskExists o with
      | true => exact hvzdp hvz hex
      | false =>
        have := hcreate hex
        rw [hdp] at this
        exact this

theorem limaDiskExists_false (o : Oracle)
    (h : o.lsResult = .cmdError ∨ o.lsResult = .badJSON ∨
      ∃ n, o.lsResult = .ok n ∧ n ≠ diskName) :
    limaDiskExists o = false := by
  unfold limaDiskExists
  rcases h with h | h | ⟨n, h, hn⟩ <;> rw [h]
  simpa using hn

theorem StepResult.andThen_err_none_left (r : StepResult) (k : FS → StepResult)
    (h : (r.andThen k).err = none) : r.err = none := by
  cases hr : r.err with
  | none => rfl
  | some e =>
    rw [StepResult.andThen_of_err_some _ _ _ hr] at h
    rw [hr] at h
    cases h

theorem goodConfig_cW : GoodConfig cW :=
  ⟨by decide, by decide, by decide, by decide, by decide, by decide, by decide,
   by decide, by decide⟩

/-! ### Claims -/

/-- C1 (amended): after every successful run of `EnsureUserDataDisk`, the
registry slot is a symlink to the persistent disk file and the lock marker
is absent; moreover the persistent disk file's format is raw under the vz
backend provided the registry disk existed at the start, or the persistent
file was absent or already raw at the start (in the creation branch the
code performs no conversion, so a pre-existing non-raw persistent file is
left as is — see the counterexample). -/
theorem c1_invariant_after_success (c : Config) (o : Oracle) (fs : FS)
    (g : GoodConfig c) (hok : (EnsureUserDataDisk c o fs).err = none) :
    (EnsureUserDataDisk c o fs).fs c.slot = some (.symlink c.userDataDiskPath) ∧
    (EnsureUserDataDisk c o fs).fs c.lock = none ∧
    (c.vmType = "vz" →
      (limaDiskExists o = true ∨ fs c.userDataDiskPath = none ∨
        fs c.userDataDiskPath = some (.file "raw")) →
      (EnsureUserDataDisk c o fs).fs c.userDataDiskPath = some (.file "raw")) :=
  ensure_success_invariant c o fs g hok

/-- C1 witness: a successful concrete run (registry absent, empty host
filesystem) at which the amended invariant holds. -/
theorem c1_witness :
    GoodConfig cW ∧ (EnsureUserDataDisk cW oAbsent fsEmpty).err = none ∧
    ((EnsureUserDataDisk cW oAbsent fsEmpty).fs cW.slot =
        some (.symlink cW.userDataDiskPath) ∧
      (EnsureUserDataDisk cW oAbsent fsEmpty).fs cW.lock = none ∧
      (cW.vmType = "vz" →
        (limaDiskExists oAbsent = true ∨ fsEmpty cW.userDataDiskPath = none ∨
          fsEmpty cW.userDataDiskPath = some (.file "raw")) →
        (EnsureUserDataDisk cW oAbsent fsEmpty).fs cW.userDataDiskPath =
          some (.file "raw"))) :=
  ⟨goodConfig_cW, by decide,
    c1_invariant_after_success cW oAbsent fsEmpty goodConfig_cW (by decide)⟩

/-- C1 counterexample to the claim as stated: from the starting state "no
registry disk" with a leftover qcow2-format persistent file under vz, the
run succeeds but the persistent disk file keeps format qcow2 — the final
state violates the raw-format clause of the invariant. -/
theorem c1_counterexample :
    cW.vmType = "vz" ∧
    (EnsureUserDataDisk cW oAbsent fsQcow2).err = none ∧
    (EnsureUserDataDisk cW oAbsent fsQcow2).fs cW.userDataDiskPath =
      some (.file "qcow2") := by
  refine ⟨rfl, by decide, by decide⟩

/-- C2 (amended): `EnsureUserDataDisk` is idempotent — after a successful
first call, a second call on the resulting state whose registry query
truthfully reports the created disk and whose inspect tool works, returns
success and performs no state-changing operation — provided that under vz
the first call left the persistent file raw (always the case when the
registry disk existed at the first call, or the persistent file was absent
or already raw; otherwise the second call performs the deferred conversion,
see the counterexample). -/
theorem c2_idempotent (c : Config) (o1 o2 : Oracle) (fs : FS) (g : GoodConfig c)
    (h1 : (EnsureUserDataDisk c o1 fs).err = none)
    (hstart : c.vmType = "vz" →
      (limaDiskExists o1 = true ∨ fs c.userDataDiskPath = none ∨
        fs c.userDataDiskPath = some (.file "raw")))
    (hls : o2.lsResult = .ok diskName) (hinfo : o2.infoFails = false) :
    (EnsureUserDataDisk c o2 (EnsureUserDataDisk c o1 fs).fs).err = none ∧
    ∀ op ∈ (EnsureUserDataDisk c o2 (EnsureUserDataDisk c o1 fs).fs).ops,
      op.isMutating = false := by
  obtain ⟨hslot, hlock, hdp⟩ := ensure_success_invariant c o1 fs g h1
  have hex2 : limaDiskExists o2 = true := by
    unfold limaDiskExists
    rw [hls]
    simp [diskName]
  have hfp : formatPhase c o2 (EnsureUserDataDisk c o1 fs).fs =
      ⟨(EnsureUserDataDisk c o1 fs).fs,
       if c.vmType = "vz" then [.qemuInfo c.userDataDiskPath] else [], none⟩ := by
    by_cases hvz : c.vmType = "vz"
    · have hinformat : getDiskInfo o2 (EnsureUserDataDisk c o1 fs).fs
          c.userDataDiskPath = .ok "raw" := by
        unfold getDiskInfo
        rw [hinfo]
        simp only [Bool.false_eq_true, if_false]
        rw [hdp hvz (hstart hvz)]
      rw [formatPhase_of_raw c o2 _ hvz hinformat, if_pos hvz]
    · rw [formatPhase_of_not_vz c o2 _ hvz, if_neg hvz]
  have hloc : (EnsureUserDataDisk c o1 fs).fs.readlinkIfPossible c.slot =
      c.userDataDiskPath := by
    unfold FS.readlinkIfPossible
    rw [hslot]
  have hlv : linkVerify c (EnsureUserDataDisk c o1 fs).fs =
      ⟨(EnsureUserDataDisk c o1 fs).fs, [], none⟩ := by
    unfold linkVerify
    simp [hloc]
  have hmain : ensureMain c o2 (EnsureUserDataDisk c o1 fs).fs =
      ⟨(EnsureUserDataDisk c o1 fs).fs,
       .diskLs :: (if c.vmType = "vz" then [.qemuInfo c.userDataDiskPath] else []),
       none⟩ := by
    unfold ensureMain
    rw [hex2]
    simp only [if_true]
    rw [StepResult.andThen_of_err_none _ _ (by rw [hfp])]
    rw [hfp]
    dsimp only
    rw [hlv]
    dsimp only
    simp
  have hlp : lockPhase c o2 (EnsureUserDataDisk c o1 fs).fs =
      ⟨(EnsureUserDataDisk c o1 fs).fs, [], none⟩ :=
    lockPhase_of_unlocked c o2 _ hlock
  have hrun : EnsureUserDataDisk c o2 (EnsureUserDataDisk c o1 fs).fs =
      ⟨(EnsureUserDataDisk c o1 fs).fs,
       .diskLs :: (if c.vmType = "vz" then [.qemuInfo c.userDataDiskPath] else []),
       none⟩ := by
    show (ensureMain c o2 (EnsureUserDataDisk c o1 fs).fs).andThen
        (fun fs1 => lockPhase c o2 fs1) = _
    rw [hmain, StepResult.andThen_of_err_none _ _ rfl]
    dsimp only
    rw [hlp]
    simp
  rw [hrun]
  refine ⟨rfl, ?_⟩
  intro op hop
  by_cases hvz : c.vmType = "vz" <;> simp only [hvz, if_pos, if_neg] at hop <;>
    simp at hop
  · rcases hop with h | h <;> rw [h] <;> rfl
  · rw [hop]
    rfl

/-- C2 witness: a concrete successful first run (registry absent, empty
filesystem) whose second run with a truthful oracle succeeds without
state-changing operations. -/
theorem c2_witness :
    (GoodConfig cW ∧ (EnsureUserDataDisk cW oAbsent fsEmpty).err = none ∧
      oPresent.lsResult = .ok diskName ∧ oPresent.infoFails = false) ∧
    ((EnsureUserDataDisk cW oPresent (EnsureUserDataDisk cW oAbsent fsEmpty).fs).err =
        none ∧
      ∀ op ∈ (EnsureUserDataDisk cW oPresent
          (EnsureUserDataDisk cW oAbsent fsEmpty).fs).ops,
        op.isMutating = false) :=
  ⟨⟨goodConfig_cW, by decide, rfl, rfl⟩,
    c2_idempotent cW oAbsent oPresent fsEmpty goodConfig_cW (by decide)
      (fun _ => Or.inr (Or.inl (by decide))) rfl rfl⟩

/-- C2 counterexample to the claim as stated: a first call from "no
registry disk, qcow2 persistent file, vz" succeeds, yet the second call
(truthful registry query, working tools, unchanged state) performs a
state-changing rename — the deferred format conversion. -/
theorem c2_counterexample :
    (EnsureUserDataDisk cW oAbsent fsQcow2).err = none ∧
    oPresent.lsResult = .ok diskName ∧ oPresent.infoFails = false ∧
    Op.rename cW.userDataDiskPath cW.qcow ∈
      (EnsureUserDataDisk cW oPresent (EnsureUserDataDisk cW oAbsent fsQcow2).fs).ops ∧
    (Op.rename cW.userDataDiskPath cW.qcow).isMutating = true := by
  refine ⟨by decide, rfl, rfl, by decide, rfl⟩

/-- C3: with the registry disk present, once the format phase has finished
without error, `EnsureUserDataDisk` reads the slot as a symlink — the
empty string when the slot is not a symlink (a regular file, directory or
missing), per the collaborator contract under which the readlink step has
no failing case — and invokes link repair exactly when the read target
differs from the persistent disk path, also when the slot was no symlink
at all. -/
theorem c3_link_verification (c : Config) (o : Oracle) (fs : FS)
    (hex : limaDiskExists o = true)
    (hfp : (formatPhase c o fs).err = none) :
    ((∀ t, (formatPhase c o fs).fs c.slot ≠ some (.symlink t)) →
      (formatPhase c o fs).fs.readlinkIfPossible c.slot = "") ∧
    (EnsureUserDataDisk c o fs).ops.count Op.attachInvoked =
      (formatPhase c o fs).ops.count Op.attachInvoked +
        (if (formatPhase c o fs).fs.readlinkIfPossible c.slot = c.userDataDiskPath
         then 0 else 1) := by
  constructor
  · intro hns
    unfold FS.readlinkIfPossible
    match hp : (formatPhase c o fs).fs c.slot with
    | some (.symlink t) => exact absurd hp (hns t)
    | some (.file f) => rfl
    | some .dir => rfl
    | none => rfl
  · have hlvcount : (linkVerify c (formatPhase c o fs).fs).ops.count Op.attachInvoked =
        (if (formatPhase c o fs).fs.readlinkIfPossible c.slot = c.userDataDiskPath
         then 0 else 1) := by
      unfold linkVerify
      by_cases hloc : (formatPhase c o fs).fs.readlinkIfPossible c.slot =
          c.userDataDiskPath
      · simp [hloc]
      · simp only [ne_eq, hloc, not_false_eq_true, if_true, if_false]
        exact attach_marker_count c _
    have hmain : (ensureMain c o fs).ops =
        .diskLs :: ((formatPhase c o fs).ops ++
          (linkVerify c (formatPhase c o fs).fs).ops) := by
      unfold ensureMain
      rw [hex]
      simp only [if_true]
      rw [StepResult.andThen_of_err_none _ _ hfp]
    have hlock0 : ∀ fsX : FS, (lockPhase c o fsX).ops.count Op.attachInvoked = 0 := by
      intro fsX
      rw [List.count_eq_zero]
      intro hmem
      exact Op.noConfusion (lockPhase_ops_mem c o fsX _ hmem)
    unfold EnsureUserDataDisk
    cases hm : (ensureMain c o fs).err with
    | some e =>
      rw [StepResult.andThen_of_err_some _ _ _ hm, hmain]
      simp [List.count_cons, List.count_append, hlvcount]
    | none =>
      rw [StepResult.andThen_of_err_none _ _ hm]
      dsimp only
      rw [hmain]
      simp [List.count_cons, List.count_append, hlvcount, hlock0]

/-- C3 witness: a concrete run (registry present, qcow2 persistent file,
vz) reaching link verification. -/
theorem c3_witness :
    (limaDiskExists oPresent = true ∧ (formatPhase cW oPresent fsQcow2).err = none) ∧
    (((∀ t, (formatPhase cW oPresent fsQcow2).fs cW.slot ≠ some (.symlink t)) →
        (formatPhase cW oPresent fsQcow2).fs.readlinkIfPossible cW.slot = "") ∧
      (EnsureUserDataDisk cW oPresent fsQcow2).ops.count Op.attachInvoked =
        (formatPhase cW oPresent fsQcow2).ops.count Op.attachInvoked +
          (if (formatPhase cW oPresent fsQcow2).fs.readlinkIfPossible cW.slot =
              cW.userDataDiskPath
           then 0 else 1)) :=
  ⟨⟨rfl, by decide⟩, c3_link_verification cW oPresent fsQcow2 rfl (by decide)⟩

/-- C4 (amended): with the registry disk present, vz, and an inspected
format other than raw, `EnsureUserDataDisk` renames the persistent file to
the fixed sibling path `<diskPath>.qcow2` (not one tagged with the old
format's extension), invokes the conversion tool with the fixed source
format `qcow2` (not the reported format) to produce a raw file at the
original path, and then re-runs link repair. -/
theorem c4_conversion_steps (c : Config) (o : Oracle) (fs : FS) (format : String)
    (hex : limaDiskExists o = true) (hvz : c.vmType = "vz")
    (hf : fs c.userDataDiskPath = some (.file format)) (hi : o.infoFails = false)
    (hraw : format ≠ "raw") (hcv : o.convertFails = false) :
    (EnsureUserDataDisk c o fs).ops.take 5 =
      [.diskLs, .qemuInfo c.userDataDiskPath, .rename c.userDataDiskPath c.qcow,
       .qemuConvert "qcow2" c.qcow c.userDataDiskPath, .attachInvoked] := by
  have hinfo : getDiskInfo o fs c.userDataDiskPath = .ok format := by
    unfold getDiskInfo
    rw [hi]
    simp only [Bool.false_eq_true, if_false]
    rw [hf]
  have hcvr := convertToRaw_of_present c o fs _ hf
  rw [hcv] at hcvr
  simp only [Bool.false_eq_true, if_false] at hcvr
  have hcverr : (convertToRaw c o fs).err = none := by rw [hcvr]
  have hcvops : (convertToRaw c o fs).ops =
      [.rename c.userDataDiskPath c.qcow,
       .qemuConvert "qcow2" c.qcow c.userDataDiskPath] := by
    rw [hcvr]
  have hdp2 : (convertToRaw c o fs).fs c.userDataDiskPath = some (.file "raw") := by
    rw [hcvr]
    exact FS.update_self _ _ _
  have hattach := attach_of_dp_exists c (convertToRaw c o fs).fs _ hdp2
  have hfp := formatPhase_of_nonraw c o fs format hvz hinfo hraw
  have hfperr : (formatPhase c o fs).err = none := by
    rw [hfp]
    dsimp only
    rw [StepResult.andThen_of_err_none _ _ hcverr]
    dsimp only
    rw [hattach]
  have hfpops : (formatPhase c o fs).ops =
      .qemuInfo c.userDataDiskPath ::
        ((convertToRaw c o fs).ops ++
          (attachPersistentDiskToLimaDisk c (convertToRaw c o fs).fs).ops) := by
    rw [hfp]
    dsimp only
    rw [StepResult.andThen_of_err_none _ _ hcverr]
  have hmainops : (ensureMain c o fs).ops =
      .diskLs :: ((formatPhase c o fs).ops ++
        (linkVerify c (formatPhase c o fs).fs).ops) := by
    unfold ensureMain
    rw [hex]
    simp only [if_true]
    rw [StepResult.andThen_of_err_none _ _ hfperr]
  unfold EnsureUserDataDisk
  cases hm : (ensureMain c o fs).err with
  | some e =>
    rw [StepResult.andThen_of_err_some _ _ _ hm, hmainops, hfpops, hcvops, hattach]
    dsimp only
    simp only [List.cons_append, List.nil_append, List.append_assoc]
    rfl
  | none =>
    rw [StepResult.andThen_of_err_none _ _ hm]
    dsimp only
    rw [hmainops, hfpops, hcvops, hattach]
    dsimp only
    simp only [List.cons_append, List.nil_append, List.append_assoc]
    rfl

/-- C4 witness: a concrete run (registry present, qcow2 persistent file,
vz) performing the rename, the conversion and the repeated link repair. -/
theorem c4_witness :
    (limaDiskExists oPresent = true ∧ cW.vmType = "vz" ∧
      fsQcow2 cW.userDataDiskPath = some (.file "qcow2") ∧
      oPresent.infoFails = false ∧ ("qcow2" : String) ≠ "raw" ∧
      oPresent.convertFails = false) ∧
    (EnsureUserDataDisk cW oPresent fsQcow2).ops.take 5 =
      [.diskLs, .qemuInfo cW.userDataDiskPath, .rename cW.userDataDiskPath cW.qcow,
       .qemuConvert "qcow2" cW.qcow cW.userDataDiskPath, .attachInvoked] :=
  ⟨⟨rfl, rfl, by decide, rfl, by decide, rfl⟩,
    c4_conversion_steps cW oPresent fsQcow2 "qcow2" rfl rfl (by decide) rfl
      (by decide) rfl⟩

/-- C4 counterexample to the claim as stated: when the inspect tool
reports format "vmdk", the code still renames to the `.qcow2` sibling and
passes source format "qcow2" to the converter — it neither renames to a
`.vmdk` sibling nor passes the old format. -/
theorem c4_counterexample :
    fsVmdk cW.userDataDiskPath = some (.file "vmdk") ∧
    cW.vmType = "vz" ∧ limaDiskExists oPresent = true ∧
    Op.rename cW.userDataDiskPath (cW.userDataDiskPath ++ ".qcow2") ∈
      (EnsureUserDataDisk cW oPresent fsVmdk).ops ∧
    Op.qemuConvert "qcow2" (cW.userDataDiskPath ++ ".qcow2") cW.userDataDiskPath ∈
      (EnsureUserDataDisk cW oPresent fsVmdk).ops ∧
    Op.rename cW.userDataDiskPath (cW.userDataDiskPath ++ ".vmdk") ∉
      (EnsureUserDataDisk cW oPresent fsVmdk).ops ∧
    Op.qemuConvert "vmdk" (cW.userDataDiskPath ++ ".vmdk") cW.userDataDiskPath ∉
      (EnsureUserDataDisk cW oPresent fsVmdk).ops ∧
    Op.qemuConvert "vmdk" (cW.userDataDiskPath ++ ".qcow2") cW.userDataDiskPath ∉
      (EnsureUserDataDisk cW oPresent fsVmdk).ops := by
  refine ⟨by decide, rfl, rfl, by decide, by decide, by decide, by decide, by decide⟩

theorem attach_convert0 (c : Config) (fs : FS) :
    ((attachPersistentDiskToLimaDisk c fs).ops.countP fun op => isConvertOp op) = 0 := by
  rw [List.countP_eq_zero]
  intro op hop
  rcases attach_ops_mem c fs op hop with h | h | h | h | h <;> rw [h] <;>
    simp [isConvertOp]

theorem lockPhase_convert0 (c : Config) (o : Oracle) (fs : FS) :
    ((lockPhase c o fs).ops.countP fun op => isConvertOp op) = 0 := by
  rw [List.countP_eq_zero]
  intro op hop
  rw [lockPhase_ops_mem c o fs op hop]
  simp [isConvertOp]

theorem linkVerify_convert0 (c : Config) (fs : FS) :
    ((linkVerify c fs).ops.countP fun op => isConvertOp op) = 0 := by
  unfold linkVerify
  by_cases hloc : fs.readlinkIfPossible c.slot = c.userDataDiskPath
  · simp [hloc]
  · simp only [ne_eq, hloc, not_false_eq_true, if_true]
    exact attach_convert0 c fs

theorem createLimaDisk_convert0 (c : Config) (o : Oracle) (fs : FS) :
    ((createLimaDisk c o fs).ops.countP fun op => isConvertOp op) = 0 := by
  unfold createLimaDisk
  cases hc : o.createFails <;>
    simp [List.countP_cons, isConvertOp]

theorem countP_convert_cons (op : Op) (l : List Op) (h : isConvertOp op = false) :
    ((op :: l).countP fun op => isConvertOp op) =
      (l.countP fun op => isConvertOp op) := by
  simp [List.countP_cons, h]

theorem convertToRaw_convert1 (c : Config) (o : Oracle) (fs : FS) (e : FSEntry)
    (he : fs c.userDataDiskPath = some e) :
    ((convertToRaw c o fs).ops.countP fun op => isConvertOp op) = 1 := by
  rw [convertToRaw_of_present c o fs e he]
  cases hc : o.convertFails <;>
    simp [List.countP_cons, List.countP_nil, isConvertOp]

theorem formatPhase_convert_count (c : Config) (o : Oracle) (fs : FS) :
    ((formatPhase c o fs).ops.countP fun op => isConvertOp op) =
      if (c.vmType == "vz") && !o.infoFails &&
         (match fs c.userDataDiskPath with
          | some (.file f) => f != "raw"
          | _ => false) then 1 else 0 := by
  by_cases hvz : c.vmType = "vz"
  · have hb : (c.vmType == "vz") = true := by simp [hvz]
    rcases hinfo : getDiskInfo o fs c.userDataDiskPath with e | fmt
    · rw [formatPhase_of_info_error c o fs e hvz hinfo]
      unfold getDiskInfo at hinfo
      cases hii : o.infoFails with
      | true => simp [hb, hii, List.countP_cons, isConvertOp]
      | false =>
        rw [hii] at hinfo
        simp only [Bool.false_eq_true, if_false] at hinfo
        match hp : fs c.userDataDiskPath with
        | some (.file f) =>
          rw [hp] at hinfo
          exact Except.noConfusion hinfo
        | some (.symlink t) => simp [hb, hii, hp, List.countP_cons, isConvertOp]
        | some .dir => simp [hb, hii, hp, List.countP_cons, isConvertOp]
        | none => simp [hb, hii, hp, List.countP_cons, isConvertOp]
    · obtain ⟨hii, hdp⟩ := getDiskInfo_ok_inv o fs _ fmt hinfo
      by_cases hraw : fmt = "raw"
      · rw [hraw] at hinfo hdp
        rw [formatPhase_of_raw c o fs hvz hinfo]
        simp [hb, hii, hdp, List.countP_cons, isConvertOp]
      · rw [formatPhase_of_nonraw c o fs fmt hvz hinfo hraw]
        dsimp only
        have hrhs : ((c.vmType == "vz") && !o.infoFails &&
            (match fs c.userDataDiskPath with
             | some (.file f) => f != "raw"
             | _ => false)) = true := by
          simp [hb, hii, hdp, hraw]
        rw [hrhs]
        simp only [if_true]
        rw [countP_convert_cons (Op.qemuInfo c.userDataDiskPath) _ rfl]
        cases hcv : (convertToRaw c o fs).err with
        | some e =>
          rw [StepResult.andThen_of_err_some _ _ _ hcv]
          rw [convertToRaw_convert1 c o fs _ hdp]
        | none =>
          rw [StepResult.andThen_of_err_none _ _ hcv]
          dsimp only
          rw [List.countP_append, convertToRaw_convert1 c o fs _ hdp, attach_convert0]
  · rw [formatPhase_of_not_vz c o fs hvz]
    have hb : (c.vmType == "vz") = false := by simp [hvz]
    simp [hb]

/-- The conversion subprocess is invoked exactly once when the registry
disk exists, the backend is vz, and the inspect tool reports a non-raw
format; zero times otherwise — shared counting lemma. -/
theorem ensure_convert_count (c : Config) (o : Oracle) (fs : FS) :
    ((EnsureUserDataDisk c o fs).ops.countP fun op => isConvertOp op) =
      if wouldConvert c o fs then 1 else 0 := by
  have hmaincount : ((ensureMain c o fs).ops.countP fun op => isConvertOp op) =
      if wouldConvert c o fs then 1 else 0 := by
    unfold ensureMain
    cases hex : limaDiskExists o with
    | false =>
      have hwc : wouldConvert c o fs = false := by
        unfold wouldConvert
        rw [hex]
        simp
      rw [hwc]
      simp only [Bool.false_eq_true, if_false]
      rw [countP_convert_cons Op.diskLs _ rfl]
      cases hcr : (createLimaDisk c o fs).err with
      | some e =>
        rw [StepResult.andThen_of_err_some _ _ _ hcr]
        exact createLimaDisk_convert0 c o fs
      | none =>
        rw [StepResult.andThen_of_err_none _ _ hcr]
        dsimp only
        rw [List.countP_append, createLimaDisk_convert0, attach_convert0]
    | true =>
      have hwc : wouldConvert c o fs =
          ((c.vmType == "vz") && !o.infoFails &&
            (match fs c.userDataDiskPath with
             | some (.file f) => f != "raw"
             | _ => false)) := by
        unfold wouldConvert
        rw [hex]
        simp [Bool.and_assoc]
      rw [hwc]
      simp only [if_true]
      rw [countP_convert_cons Op.diskLs _ rfl]
      cases hfe : (formatPhase c o fs).err with
      | some e =>
        rw [StepResult.andThen_of_err_some _ _ _ hfe]
        exact formatPhase_convert_count c o fs
      | none =>
        rw [StepResult.andThen_of_err_none _ _ hfe]
        dsimp only
        rw [List.countP_append, linkVerify_convert0, Nat.add_zero]
        exact formatPhase_convert_count c o fs
  unfold EnsureUserDataDisk
  cases hm : (ensureMain c o fs).err with
  | some e =>
    rw [StepResult.andThen_of_err_some _ _ _ hm]
    exact hmaincount
  | none =>
    rw [StepResult.andThen_of_err_none _ _ hm]
    dsimp only
    rw [List.countP_append, lockPhase_convert0, hmaincount]
    simp

/-- C5: in every run of `EnsureUserDataDisk` the format-conversion
subprocess is invoked exactly once when the registry disk exists, the
backend is vz, and the inspect tool reports the persistent disk's format
as non-raw; and zero times otherwise — in particular never twice, even
when link repair runs again after conversion. -/
theorem c5_convert_invoked_once (c : Config) (o : Oracle) (fs : FS) :
    ((EnsureUserDataDisk c o fs).ops.countP fun op => isConvertOp op) =
      if wouldConvert c o fs then 1 else 0 :=
  ensure_convert_count c o fs

/-- Link repair always records its entry marker first. -/
theorem attach_ops_head (c : Config) (fs : FS) :
    ∃ tail, (attachPersistentDiskToLimaDisk c fs).ops = Op.attachInvoked :: tail := by
  have hmove : ∃ t, (moveToPersistent c fs).ops = Op.attachInvoked :: t := by
    unfold moveToPersistent
    by_cases hp : persistentDiskExists c fs = true
    · simp [hp]
    · simp only [hp, if_false]
      rcases hre : FS.rename (if fs.stat c.disksDir then fs else fs.mkdirAll c.disksDir)
          c.slot c.userDataDiskPath with _ | fs2 <;>
        by_cases hdd : fs.stat c.disksDir = true <;>
        simp [hdd]
  obtain ⟨t, ht⟩ := hmove
  unfold attachPersistentDiskToLimaDisk
  cases hm : (moveToPersistent c fs).err with
  | some e =>
    rw [StepResult.andThen_of_err_some _ _ _ hm, ht]
    exact ⟨t, rfl⟩
  | none =>
    rw [StepResult.andThen_of_err_none _ _ hm]
    dsimp only
    rw [ht]
    exact ⟨_, rfl⟩

/-- C6: any registry query outcome other than a decoded record named
"finch" — command failure, undecodable JSON output, or a decoded name
mismatch — makes `EnsureUserDataDisk` treat the disk as non-existent and
take the creation branch (create, then link repair); the query helper
returns a plain boolean, so the query never produces an error of its
own. -/
theorem c6_query_fail_open (c : Config) (o : Oracle) (fs : FS)
    (h : o.lsResult = .cmdError ∨ o.lsResult = .badJSON ∨
      ∃ n, o.lsResult = .ok n ∧ n ≠ diskName) :
    limaDiskExists o = false ∧
    (EnsureUserDataDisk c o fs).ops.take 2 = [.diskLs, .diskCreate] ∧
    (o.createFails = false →
      (EnsureUserDataDisk c o fs).ops.take 3 =
        [.diskLs, .diskCreate, .attachInvoked]) := by
  have hex : limaDiskExists o = false := limaDiskExists_false o h
  refine ⟨hex, ?_⟩
  cases hcf : o.createFails with
  | true =>
    have hcr : createLimaDisk c o fs = ⟨fs, [.diskCreate], some .createFailed⟩ := by
      unfold createLimaDisk
      rw [hcf]
      simp
    have hmain : ensureMain c o fs = ⟨fs, [.diskLs, .diskCreate], some .createFailed⟩ := by
      unfold ensureMain
      rw [hex]
      simp only [Bool.false_eq_true, if_false]
      rw [StepResult.andThen_of_err_some _ _ DiskErr.createFailed (by rw [hcr]), hcr]
    have hrun : EnsureUserDataDisk c o fs =
        ⟨fs, [.diskLs, .diskCreate], some .createFailed⟩ := by
      unfold EnsureUserDataDisk
      rw [StepResult.andThen_of_err_some _ _ DiskErr.createFailed (by rw [hmain]), hmain]
    rw [hrun]
    exact ⟨rfl, fun habs => absurd habs (by simp)⟩
  | false =>
    have hcr : createLimaDisk c o fs =
        ⟨fs.update c.slot (some (.file "raw")), [.diskCreate], none⟩ := by
      unfold createLimaDisk
      rw [hcf]
      simp
    obtain ⟨tail, htail⟩ :=
      attach_ops_head c (fs.update c.slot (some (FSEntry.file "raw")))
    have hmainops : (ensureMain c o fs).ops =
        .diskLs :: .diskCreate :: .attachInvoked :: tail := by
      unfold ensureMain
      rw [hex]
      simp only [Bool.false_eq_true, if_false]
      rw [StepResult.andThen_of_err_none _ _ (by rw [hcr]), hcr]
      dsimp only
      rw [htail]
      rfl
    unfold EnsureUserDataDisk
    cases hm : (ensureMain c o fs).err with
    | some e =>
      rw [StepResult.andThen_of_err_some _ _ _ hm, hmainops]
      exact ⟨rfl, fun _ => rfl⟩
    | none =>
      rw [StepResult.andThen_of_err_none _ _ hm]
      dsimp only
      rw [hmainops]
      exact ⟨rfl, fun _ => rfl⟩

/-- C6 witness: a failing registry query on the empty filesystem leads to
create-then-repair. -/
theorem c6_witness :
    (oAbsent.lsResult = .cmdError ∨ oAbsent.lsResult = .badJSON ∨
      ∃ n, oAbsent.lsResult = .ok n ∧ n ≠ diskName) ∧
    (limaDiskExists oAbsent = false ∧
      (EnsureUserDataDisk cW oAbsent fsEmpty).ops.take 2 = [.diskLs, .diskCreate] ∧
      (oAbsent.createFails = false →
        (EnsureUserDataDisk cW oAbsent fsEmpty).ops.take 3 =
          [.diskLs, .diskCreate, .attachInvoked])) :=
  ⟨Or.inl rfl, c6_query_fail_open cW oAbsent fsEmpty (Or.inl rfl)⟩

/-- C7: link repair moves the slot's file to the persistent path (after
creating the parent directory exactly when it is missing) if and only if
the persistent file does not exist; when the persistent file exists, a
slot occupant is removed, never moved; and every successful repair ends by
creating the slot symlink after clearing any occupant
(stat-before-remove). -/
theorem c7_link_repair (c : Config) (fs : FS) (g : GoodConfig c) :
    ((∃ s d, Op.rename s d ∈ (attachPersistentDiskToLimaDisk c fs).ops) ↔
      fs c.userDataDiskPath = none) ∧
    (Op.mkdirAll c.disksDir ∈ (attachPersistentDiskToLimaDisk c fs).ops ↔
      (fs c.userDataDiskPath = none ∧ fs c.disksDir = none)) ∧
    (fs c.userDataDiskPath ≠ none →
      (Op.remove c.slot ∈ (attachPersistentDiskToLimaDisk c fs).ops ↔
        fs c.slot ≠ none)) ∧
    ((attachPersistentDiskToLimaDisk c fs).err = none →
      (attachPersistentDiskToLimaDisk c fs).ops.getLast? =
          some (Op.symlink c.userDataDiskPath c.slot) ∧
      (attachPersistentDiskToLimaDisk c fs).fs c.slot =
        some (.symlink c.userDataDiskPath)) := by
  cases hdp : fs c.userDataDiskPath with
  | some e =>
    rw [attach_of_dp_exists c fs e hdp]
    dsimp only
    refine ⟨?_, ?_, ?_, ?_⟩
    · constructor
      · rintro ⟨s, d, hm⟩
        cases hs : (fs c.slot).isSome <;> simp [hs] at hm
      · intro habs
        cases habs
    · constructor
      · intro hm
        cases hs : (fs c.slot).isSome <;> simp [hs] at hm
      · rintro ⟨habs, -⟩
        cases habs
    · intro _
      cases hs : fs c.slot with
      | some e2 => simp [hs]
      | none => simp [hs]
    · intro _
      refine ⟨?_, FS.update_self _ _ _⟩
      cases hs : (fs c.slot).isSome <;> simp [hs, List.getLast?]
  | none =>
    cases hs : fs c.slot with
    | some e =>
      rw [attach_of_dp_missing_slot c fs e hdp hs g.dir_ne_slot g.dp_ne_slot]
      dsimp only
      refine ⟨?_, ?_, ?_, ?_⟩
      · refine iff_of_true ⟨c.slot, c.userDataDiskPath, ?_⟩ rfl
        cases hdd : (fs.stat c.disksDir) <;> simp [hdd]
      · cases hdd : fs c.disksDir with
        | some v =>
          have hst : fs.stat c.disksDir = true := by simp [FS.stat, hdd]
          simp [hst, hdd]
        | none =>
          have hst : fs.stat c.disksDir = false := by simp [FS.stat, hdd]
          simp [hst, hdd]
      · intro habs
        exact absurd rfl habs
      · intro _
        refine ⟨?_, FS.update_self _ _ _⟩
        cases hdd : (fs.stat c.disksDir) <;> simp [hdd, List.getLast?]
    | none =>
      rw [attach_of_dp_missing_noslot c fs hdp hs g.dir_ne_slot]
      dsimp only
      refine ⟨?_, ?_, ?_, ?_⟩
      · refine iff_of_true ⟨c.slot, c.userDataDiskPath, ?_⟩ rfl
        cases hdd : (fs.stat c.disksDir) <;> simp [hdd]
      · cases hdd : fs c.disksDir with
        | some v =>
          have hst : fs.stat c.disksDir = true := by simp [FS.stat, hdd]
          simp [hst, hdd]
        | none =>
          have hst : fs.stat c.disksDir = false := by simp [FS.stat, hdd]
          simp [hst, hdd]
      · intro habs
        exact absurd rfl habs
      · intro habs
        cases habs

/-- C7 witness: a concrete filesystem with the persistent file present and
an occupied slot. -/
theorem c7_witness :
    GoodConfig cW ∧
    (((∃ s d, Op.rename s d ∈ (attachPersistentDiskToLimaDisk cW fsQcow2).ops) ↔
        fsQcow2 cW.userDataDiskPath = none) ∧
      (Op.mkdirAll cW.disksDir ∈ (attachPersistentDiskToLimaDisk cW fsQcow2).ops ↔
        (fsQcow2 cW.userDataDiskPath = none ∧ fsQcow2 cW.disksDir = none)) ∧
      (fsQcow2 cW.userDataDiskPath ≠ none →
        (Op.remove cW.slot ∈ (attachPersistentDiskToLimaDisk cW fsQcow2).ops ↔
          fsQcow2 cW.slot ≠ none)) ∧
      ((attachPersistentDiskToLimaDisk cW fsQcow2).err = none →
        (attachPersistentDiskToLimaDisk cW fsQcow2).ops.getLast? =
            some (Op.symlink cW.userDataDiskPath cW.slot) ∧
        (attachPersistentDiskToLimaDisk cW fsQcow2).fs cW.slot =
          some (.symlink cW.userDataDiskPath))) :=
  ⟨goodConfig_cW, c7_link_repair cW fsQcow2 goodConfig_cW⟩

theorem mainOp_ne_unlock (c : Config) (op : Op) (h : mainOp c op) :
    op ≠ Op.diskUnlock := by
  unfold mainOp at h
  rintro rfl
  rcases h with h | h | h | h | h | h | h | h | h | h <;> exact Op.noConfusion h

/-- C8: in every run whose pre-lock phase succeeded (lock clearance is
reached), the unlock command is invoked if and only if the lock marker is
present at that point — regardless of which branch ran earlier — and an
unlock failure is returned to the caller. -/
theorem c8_lock_clearance (c : Config) (o : Oracle) (fs : FS)
    (hm : (ensureMain c o fs).err = none) :
    (Op.diskUnlock ∈ (EnsureUserDataDisk c o fs).ops ↔
      ((ensureMain c o fs).fs c.lock).isSome = true) ∧
    (((ensureMain c o fs).fs c.lock).isSome = true → o.unlockFails = true →
      (EnsureUserDataDisk c o fs).err = some .unlockFailed) := by
  have hrun : EnsureUserDataDisk c o fs =
      ⟨(lockPhase c o (ensureMain c o fs).fs).fs,
       (ensureMain c o fs).ops ++ (lockPhase c o (ensureMain c o fs).fs).ops,
       (lockPhase c o (ensureMain c o fs).fs).err⟩ := by
    unfold EnsureUserDataDisk
    exact StepResult.andThen_of_err_none _ _ hm
  rw [hrun]
  dsimp only
  constructor
  · rw [List.mem_append]
    constructor
    · rintro (h | h)
      · exact absurd rfl (mainOp_ne_unlock c _ (ensureMain_ops_mem c o fs _ h))
      · exact (lockPhase_unlock_iff c o _).mp h
    · intro h
      exact Or.inr ((lockPhase_unlock_iff c o _).mpr h)
  · intro hlocked hu
    obtain ⟨v, hv⟩ := Option.isSome_iff_exists.mp hlocked
    rw [lockPhase_of_locked c o _ v hv, hu]
    simp

/-- C8 witness: a converged state with the marker present and a failing
unlock command. -/
theorem c8_witness :
    (ensureMain cW oUnlockFail fsReady).err = none ∧
    ((Op.diskUnlock ∈ (EnsureUserDataDisk cW oUnlockFail fsReady).ops ↔
        ((ensureMain cW oUnlockFail fsReady).fs cW.lock).isSome = true) ∧
      (((ensureMain cW oUnlockFail fsReady).fs cW.lock).isSome = true →
        oUnlockFail.unlockFails = true →
        (EnsureUserDataDisk cW oUnlockFail fsReady).err = some .unlockFailed)) :=
  ⟨by decide, c8_lock_clearance cW oUnlockFail fsReady (by decide)⟩

/-- C9: whenever a run fails at any step before lock clearance (the
returned error is not an unlock failure), that first error is returned
immediately: the unlock command is never invoked and the lock marker is
exactly as it was at the start — in particular a present marker remains in
place. -/
theorem c9_fail_fast (c : Config) (o : Oracle) (fs : FS) (g : GoodConfig c)
    (e : DiskErr) (he : (EnsureUserDataDisk c o fs).err = some e)
    (hne : e ≠ .unlockFailed) :
    Op.diskUnlock ∉ (EnsureUserDataDisk c o fs).ops ∧
    (EnsureUserDataDisk c o fs).fs c.lock = fs c.lock := by
  cases hm : (ensureMain c o fs).err with
  | some e' =>
    have hrun : EnsureUserDataDisk c o fs = ensureMain c o fs := by
      unfold EnsureUserDataDisk
      exact StepResult.andThen_of_err_some _ _ _ hm
    rw [hrun]
    exact ⟨fun h => mainOp_ne_unlock c _ (ensureMain_ops_mem c o fs _ h) rfl,
      ensureMain_lock c o fs g⟩
  | none =>
    have hrun : EnsureUserDataDisk c o fs =
        ⟨(lockPhase c o (ensureMain c o fs).fs).fs,
         (ensureMain c o fs).ops ++ (lockPhase c o (ensureMain c o fs).fs).ops,
         (lockPhase c o (ensureMain c o fs).fs).err⟩ := by
      unfold EnsureUserDataDisk
      exact StepResult.andThen_of_err_none _ _ hm
    rw [hrun] at he
    dsimp only at he
    have heu : e = .unlockFailed := by
      cases hl : (ensureMain c o fs).fs c.lock with
      | none =>
        rw [lockPhase_of_unlocked c o _ hl] at he
        cases he
      | some v =>
        rw [lockPhase_of_locked c o _ v hl] at he
        cases hu : o.unlockFails with
        | true =>
          rw [hu] at he
          simp only [if_true] at he
          exact (Option.some.inj he).symm
        | false =>
          rw [hu] at he
          simp only [Bool.false_eq_true, if_false] at he
          cases he
    exact absurd heu hne

/-- C9 witness: a run failing at disk-info inspection with the lock marker
present leaves the marker in place and never unlocks. -/
theorem c9_witness :
    GoodConfig cW ∧
    (EnsureUserDataDisk cW oInfoFail fsReady).err = some .infoFailed ∧
    DiskErr.infoFailed ≠ DiskErr.unlockFailed ∧
    (Op.diskUnlock ∉ (EnsureUserDataDisk cW oInfoFail fsReady).ops ∧
      (EnsureUserDataDisk cW oInfoFail fsReady).fs cW.lock = fsReady cW.lock) :=
  ⟨goodConfig_cW, by decide, by decide,
    c9_fail_fast cW oInfoFail fsReady goodConfig_cW .infoFailed (by decide) (by decide)⟩

theorem mainOp_remove_qcow (c : Config) (op : Op) (h : mainOp c op)
    (hr : op = Op.remove c.qcow) : c.qcow = c.slot := by
  subst hr
  unfold mainOp at h
  rcases h with h | h | h | h | h | h | h | h | h | h <;> simp at h
  exact h

/-- C10: no run of `EnsureUserDataDisk` ever removes the qcow sibling
file; and after a successful run that invoked conversion, the
pre-conversion image remains at `<diskPath>.qcow2`, holding the persistent
file's original (non-raw) content. -/
theorem c10_qcow_preserved (c : Config) (o : Oracle) (fs : FS) (g : GoodConfig c) :
    Op.remove c.qcow ∉ (EnsureUserDataDisk c o fs).ops ∧
    ((EnsureUserDataDisk c o fs).err = none →
      ((EnsureUserDataDisk c o fs).ops.any fun op => isConvertOp op) = true →
      ∃ f, fs c.userDataDiskPath = some (.file f) ∧
        (EnsureUserDataDisk c o fs).fs c.qcow = some (.file f)) := by
  constructor
  · intro hmem
    unfold EnsureUserDataDisk at hmem
    cases hm : (ensureMain c o fs).err with
    | some e =>
      rw [StepResult.andThen_of_err_some _ _ _ hm] at hmem
      exact g.qcow_ne_slot (mainOp_remove_qcow c _ (ensureMain_ops_mem c o fs _ hmem) rfl)
    | none =>
      rw [StepResult.andThen_of_err_none _ _ hm] at hmem
      dsimp only at hmem
      rcases List.mem_append.mp hmem with h | h
      · exact g.qcow_ne_slot (mainOp_remove_qcow c _ (ensureMain_ops_mem c o fs _ h) rfl)
      · exact Op.noConfusion (lockPhase_ops_mem c o _ _ h)
  · intro hok hany
    have hwc : wouldConvert c o fs = true := by
      by_contra hfc
      have hwf : wouldConvert c o fs = false := by
        cases hv : wouldConvert c o fs with
        | true => exact absurd hv hfc
        | false => rfl
      have hcount := ensure_convert_count c o fs
      rw [hwf] at hcount
      simp only [Bool.false_eq_true, if_false] at hcount
      rw [List.any_eq_true] at hany
      obtain ⟨op, hop, hp⟩ := hany
      exact absurd hp (List.countP_eq_zero.mp hcount op hop)
    unfold wouldConvert at hwc
    simp only [Bool.and_eq_true] at hwc
    obtain ⟨⟨⟨hex, hvzb⟩, hib⟩, hmatch⟩ := hwc
    have hvz : c.vmType = "vz" := by simpa using hvzb
    have hi : o.infoFails = false := by simpa using hib
    obtain ⟨f, hdp, hraw⟩ : ∃ f, fs c.userDataDiskPath = some (.file f) ∧ f ≠ "raw" := by
      match hp : fs c.userDataDiskPath with
      | some (.file f) =>
        rw [hp] at hmatch
        exact ⟨f, rfl, by simpa using hmatch⟩
      | some (.symlink t) => rw [hp] at hmatch; cases hmatch
      | some .dir => rw [hp] at hmatch; cases hmatch
      | none => rw [hp] at hmatch; cases hmatch
    refine ⟨f, hdp, ?_⟩
    have hinfo : getDiskInfo o fs c.userDataDiskPath = .ok f := by
      unfold getDiskInfo
      rw [hi]
      simp only [Bool.false_eq_true, if_false]
      rw [hdp]
    have hok' : ((ensureMain c o fs).andThen fun fs1 => lockPhase c o fs1).err = none := hok
    have hmerr : (ensureMain c o fs).err = none :=
      StepResult.andThen_err_none_left _ _ hok'
    have hfperr : (formatPhase c o fs).err = none := by
      unfold ensureMain at hmerr
      rw [hex] at hmerr
      simp only [if_true] at hmerr
      exact StepResult.andThen_err_none_left _ _ hmerr
    have hfp := formatPhase_of_nonraw c o fs f hvz hinfo hraw
    have hcverr : (convertToRaw c o fs).err = none := by
      rw [hfp] at hfperr
      dsimp only at hfperr
      exact StepResult.andThen_err_none_left _ _ hfperr
    have hcf : o.convertFails = false := by
      cases hcf0 : o.convertFails with
      | false => rfl
      | true =>
        rw [convertToRaw_of_present c o fs _ hdp, hcf0] at hcverr
        simp at hcverr
    have hcvq : (convertToRaw c o fs).fs c.qcow = some (.file f) := by
      rw [convertToRaw_of_present c o fs _ hdp, hcf]
      simp only [Bool.false_eq_true, if_false]
      rw [FS.update_ne _ _ (Config.qcow_ne_dp c), FS.update_self]
    have hfpq : (formatPhase c o fs).fs c.qcow = some (.file f) := by
      rw [hfp]
      dsimp only
      rw [StepResult.andThen_of_err_none _ _ hcverr]
      dsimp only
      rw [attach_frame c _ c.qcow (Config.qcow_ne_dp c) g.qcow_ne_slot
        (Ne.symm g.dir_ne_qcow)]
      exact hcvq
    have hmq : (ensureMain c o fs).fs c.qcow = some (.file f) := by
      unfold ensureMain
      rw [hex]
      simp only [if_true]
      rw [StepResult.andThen_of_err_none _ _ hfperr]
      dsimp only
      rw [linkVerify_frame c _ c.qcow (Config.qcow_ne_dp c) g.qcow_ne_slot
        (Ne.symm g.dir_ne_qcow)]
      exact hfpq
    have hrun : EnsureUserDataDisk c o fs =
        ⟨(lockPhase c o (ensureMain c o fs).fs).fs,
         (ensureMain c o fs).ops ++ (lockPhase c o (ensureMain c o fs).fs).ops,
         (lockPhase c o (ensureMain c o fs).fs).err⟩ := by
      unfold EnsureUserDataDisk
      exact StepResult.andThen_of_err_none _ _ hmerr
    rw [hrun]
    dsimp only
    rw [lockPhase_frame c o _ c.qcow g.qcow_ne_lock]
    exact hmq

/-- C10 witness: a successful converting run (registry present, qcow2
persistent file, vz) leaves the old image at the qcow sibling path. -/
theorem c10_witness :
    GoodConfig cW ∧
    (Op.remove cW.qcow ∉ (EnsureUserDataDisk cW oPresent fsQcow2).ops ∧
      ((EnsureUserDataDisk cW oPresent fsQcow2).err = none →
        ((EnsureUserDataDisk cW oPresent fsQcow2).ops.any fun op => isConvertOp op) =
          true →
        ∃ f, fsQcow2 cW.userDataDiskPath = some (.file f) ∧
          (EnsureUserDataDisk cW oPresent fsQcow2).fs cW.qcow = some (.file f))) :=
  ⟨goodConfig_cW, c10_qcow_preserved cW oPresent fsQcow2 goodConfig_cW⟩

end FinchDisk
